import Mathlib

/-!
Verification development for the Blackjack bet-spread simulator backend
(`backend/app/engine/simulation.py` and `backend/app/models.py`).

The Python engine is shallowly embedded: Python `float` arithmetic is
modelled by `ℚ` (exact arithmetic; all verified claims are about control
flow, counting, or algebraic identities that do not depend on IEEE
rounding), transcendental functions (`math.exp`, `math.log`, `math.sqrt`,
`math.erf`) are modelled over `ℝ`, Python exceptions are modelled by
`Except SimError`, and the two unbounded `while` loops of the round
machine carry explicit fuel.  `numpy`'s PRNG is abstracted as an oracle
`shuffle : ℕ → List Card → List Card` (one entry per `rng.shuffle` call);
theorems that need it assume each oracle output is a permutation of its
input, which is `rng.shuffle`'s contract.  Debug-hand logging is omitted:
it writes to a string log that no other part of the engine reads.
-/

namespace Blackjack

/-- The thirteen card ranks (`CARD_ORDER` in the source). -/
inductive Card where
  | c2 | c3 | c4 | c5 | c6 | c7 | c8 | c9 | cT | cJ | cQ | cK | cA
deriving DecidableEq, Repr

/-- `CARD_ORDER`: the fixed rank order used to build a shoe. -/
def CARD_ORDER : List Card :=
  [.c2, .c3, .c4, .c5, .c6, .c7, .c8, .c9, .cT, .cJ, .cQ, .cK, .cA]

/-- `CARD_VALUES`: digit ranks as written, T/J/Q/K = 10, A = 11. -/
def CARD_VALUES : Card → ℕ
  | .c2 => 2 | .c3 => 3 | .c4 => 4 | .c5 => 5 | .c6 => 6
  | .c7 => 7 | .c8 => 8 | .c9 => 9
  | .cT => 10 | .cJ => 10 | .cQ => 10 | .cK => 10
  | .cA => 11

/-- String form of a rank, as used in Python hand keys. -/
def cardStr : Card → String
  | .c2 => "2" | .c3 => "3" | .c4 => "4" | .c5 => "5" | .c6 => "6"
  | .c7 => "7" | .c8 => "8" | .c9 => "9"
  | .cT => "T" | .cJ => "J" | .cQ => "Q" | .cK => "K"
  | .cA => "A"

/-- `upcard_key`: tens-valued ranks collapse to `T` for policy lookup. -/
def upcard_key (card : Card) : Card :=
  match card with
  | .cT | .cJ | .cQ | .cK => .cT
  | c => c

/-- The `while total > 21 and aces` soft-ace downgrade loop of `hand_value`. -/
def softAdjust (total : ℕ) (aces : ℕ) : ℕ × ℕ :=
  match aces with
  | 0 => (total, 0)
  | a + 1 => if total > 21 then softAdjust (total - 10) a else (total, a + 1)

/-- `hand_value`: blackjack total together with the softness flag. -/
def hand_value (cards : List Card) : ℕ × Bool :=
  let total := (cards.map CARD_VALUES).sum
  let aces := (cards.filter (fun c => c = Card.cA)).length
  let (total, aces) := softAdjust total aces
  (total, decide (aces > 0 ∧ total ≤ 21))

/-- `is_blackjack`: a two-card hand holding an ace and a ten-valued card. -/
def is_blackjack (cards : List Card) : Bool :=
  cards.length = 2 ∧ Card.cA ∈ cards ∧
    (cards.any fun c => c = Card.cT ∨ c = Card.cJ ∨ c = Card.cQ ∨ c = Card.cK)

/-- `models.Deviation`: one index-play entry. -/
structure Deviation where
  hand_key : String
  tc_floor : ℤ
  action : String
deriving DecidableEq, Repr

/-- A deviation index: the engine's `dev_index` dict of per-key entry lists. -/
abbrev DevIndex := List (String × List Deviation)

/-- Dict lookup on the deviation index (keys are unique by construction). -/
def devLookup (key : String) : DevIndex → Option (List Deviation)
  | [] => none
  | (k, ds) :: rest => if k = key then some ds else devLookup key rest

/-- The inner `for dev in deviations[key]` scan of `apply_deviation`:
returns the action of the first entry whose `tc_floor ≤ floor_tc`. -/
def firstMatch (floor_tc : ℤ) : List Deviation → Option String
  | [] => none
  | d :: ds => if floor_tc ≥ d.tc_floor then some d.action else firstMatch floor_tc ds

/-- `apply_deviation`: check `hand_key` then `hand_key ++ "_surrender"`;
scan each present key's list in order, returning on the first entry whose
`tc_floor ≤ ⌊true_count⌋`; empty string when nothing matches. -/
def apply_deviation (hand_key : String) (true_count : ℚ) (deviations : DevIndex) : String :=
  let floor_tc := ⌊true_count⌋
  match (devLookup hand_key deviations).bind (firstMatch floor_tc) with
  | some a => a
  | none =>
    match (devLookup (hand_key ++ "_surrender") deviations).bind (firstMatch floor_tc) with
    | some a => a
    | none => ""

/-- `models.Rules`. -/
structure Rules where
  decks : ℕ
  hit_soft_17 : Bool
  double_after_split : Bool
  double_any_two : Bool
  surrender : Bool
  resplit_aces : Bool
  max_splits : ℕ
  hit_split_aces : Bool
  blackjack_payout : ℚ
  dealer_peeks : Bool
  penetration : ℚ
deriving DecidableEq, Repr

/-- The default `Rules()` of `models.py`. -/
def defaultRules : Rules where
  decks := 6
  hit_soft_17 := true
  double_after_split := true
  double_any_two := true
  surrender := true
  resplit_aces := true
  max_splits := 3
  hit_split_aces := false
  blackjack_payout := 3 / 2
  dealer_peeks := true
  penetration := 3 / 4

/-- `basic_strategy_action`: total-based strategy returning one of
H, S, R, DH, DS. -/
def basic_strategy_action (player : List Card) (dealer_up : Card) (rules : Rules) : String :=
  let (total, soft) := hand_value player
  let up := upcard_key dealer_up
  if rules.surrender ∧
      ((total = 16 ∧ (up = Card.c9 ∨ up = Card.cT ∨ up = Card.cA)) ∨
       (total = 15 ∧ up = Card.cT)) then "R"
  else if ¬ soft then
    if total ≥ 17 then "S"
    else if 13 ≤ total ∧ total ≤ 16 then
      if up = Card.c2 ∨ up = Card.c3 ∨ up = Card.c4 ∨ up = Card.c5 ∨ up = Card.c6
      then "S" else "H"
    else if total = 12 then
      if up = Card.c4 ∨ up = Card.c5 ∨ up = Card.c6 then "S" else "H"
    else if total = 11 then
      if up = Card.cA ∧ ¬ rules.hit_soft_17 then "H" else "DH"
    else if total = 10 then
      if ¬ (up = Card.cT ∨ up = Card.cA) then "DH" else "H"
    else if total = 9 then
      if up = Card.c2 ∧ rules.hit_soft_17 then "DH"
      else if up = Card.c3 ∨ up = Card.c4 ∨ up = Card.c5 ∨ up = Card.c6 then "DH" else "H"
    else "H"
  else
    if total ≥ 19 then "S"
    else if total = 18 then
      if up = Card.c2 then (if rules.hit_soft_17 then "DS" else "S")
      else if up = Card.c3 ∨ up = Card.c4 ∨ up = Card.c5 ∨ up = Card.c6 then "DS"
      else if up = Card.c7 ∨ up = Card.c8 then "S"
      else "H"
    else if total = 17 then
      if up = Card.c3 ∨ up = Card.c4 ∨ up = Card.c5 ∨ up = Card.c6 then "DH" else "H"
    else if total = 15 ∨ total = 16 then
      if up = Card.c4 ∨ up = Card.c5 ∨ up = Card.c6 then "DH" else "H"
    else if total = 13 ∨ total = 14 then
      if up = Card.c5 ∨ up = Card.c6 then "DH" else "H"
    else "H"

/-- `pair_strategy_action`: DAS-aware pair splitting table. -/
def pair_strategy_action (rank : Card) (dealer_up : Card) (rules : Rules) : String :=
  let up := upcard_key dealer_up
  if rank = Card.cA then "P"
  else if rank = Card.cT ∨ rank = Card.cJ ∨ rank = Card.cQ ∨ rank = Card.cK then "S"
  else if rank = Card.c9 then
    if up = Card.c2 ∨ up = Card.c3 ∨ up = Card.c4 ∨ up = Card.c5 ∨ up = Card.c6 ∨
        up = Card.c8 ∨ up = Card.c9 then "P" else "S"
  else if rank = Card.c8 then "P"
  else if rank = Card.c7 then
    if up = Card.c2 ∨ up = Card.c3 ∨ up = Card.c4 ∨ up = Card.c5 ∨ up = Card.c6 ∨
        up = Card.c7 then "P" else "H"
  else if rank = Card.c6 then
    if rules.double_after_split then
      if up = Card.c2 ∨ up = Card.c3 ∨ up = Card.c4 ∨ up = Card.c5 ∨ up = Card.c6
      then "P" else "H"
    else
      if up = Card.c3 ∨ up = Card.c4 ∨ up = Card.c5 ∨ up = Card.c6 then "P" else "H"
  else if rank = Card.c5 then
    if up = Card.c2 ∨ up = Card.c3 ∨ up = Card.c4 ∨ up = Card.c5 ∨ up = Card.c6 ∨
        up = Card.c7 ∨ up = Card.c8 ∨ up = Card.c9 then "D" else "H"
  else if rank = Card.c4 then
    if rules.double_after_split ∧ (up = Card.c5 ∨ up = Card.c6) then "P" else "H"
  else if rank = Card.c2 ∨ rank = Card.c3 then
    if rules.double_after_split then
      if up = Card.c2 ∨ up = Card.c3 ∨ up = Card.c4 ∨ up = Card.c5 ∨ up = Card.c6 ∨
          up = Card.c7 then "P" else "H"
    else
      if up = Card.c4 ∨ up = Card.c5 ∨ up = Card.c6 ∨ up = Card.c7 then "P" else "H"
  else "H"

/-- Python's built-in `round`: round half to even. -/
def pythonRound (x : ℚ) : ℤ :=
  let fl := ⌊x⌋
  let frac := x - fl
  if frac < 1 / 2 then fl
  else if frac > 1 / 2 then fl + 1
  else if fl % 2 = 0 then fl else fl + 1

/-- `estimate_decks`: quantize `remaining_cards / 52` to the `step` grid. -/
def estimate_decks (remaining_cards : ℤ) (step : ℚ) (rounding : String) : ℚ :=
  let decks : ℚ := (remaining_cards : ℚ) / 52
  if step ≤ 0 then max decks (1 / 4)
  else
    let val := decks / step
    let est :=
      if rounding = "floor" then (⌊val⌋ : ℚ) * step
      else if rounding = "ceil" then (⌈val⌉ : ℚ) * step
      else (pythonRound val : ℚ) * step
    max est step

/-- `choose_action`: deviation lookup first (with D downgraded to H when
doubling is not allowed), falling back to basic strategy with DH/DS
resolved against `can_double`. -/
def choose_action (player : List Card) (dealer_up : Card) (true_count : ℚ)
    (deviations : DevIndex) (rules : Rules) (can_double : Bool) : String :=
  let (total, soft) := hand_value player
  let hand_key :=
    toString total ++ (if soft then "s" else "") ++ "v" ++ cardStr (upcard_key dealer_up)
  let dev_action := apply_deviation hand_key true_count deviations
  if dev_action ≠ "" then
    if dev_action = "D" ∧ ¬ can_double then "H" else dev_action
  else
    let action := basic_strategy_action player dealer_up rules
    if action = "DH" then (if can_double then "D" else "H")
    else if action = "DS" then (if can_double then "D" else "S")
    else action

/-- `models.BetRampEntry`. -/
structure BetRampEntry where
  tc_floor : ℤ
  units : ℚ
deriving DecidableEq, Repr

/-- `models.BetRamp`. -/
structure BetRamp where
  steps : List BetRampEntry
  wong_out_below : Option ℤ
  wong_out_policy : String
deriving DecidableEq, Repr

/-- Stable insertion into a tc_floor-sorted list (models Python `sorted`). -/
def insertStep (x : BetRampEntry) : List BetRampEntry → List BetRampEntry
  | [] => [x]
  | y :: ys => if x.tc_floor < y.tc_floor then x :: y :: ys else y :: insertStep x ys

/-- `sorted(steps, key = tc_floor)`: stable sort by ascending tc_floor. -/
def sortSteps : List BetRampEntry → List BetRampEntry
  | [] => []
  | x :: xs => insertStep x (sortSteps xs)

/-- The `for step in ramp_steps` walk of `choose_bet`: keep the last step
whose `tc_floor ≤ tc_floor(bet)`, stopping at the first larger one. -/
def betWalk (fl : ℤ) : List BetRampEntry → Option BetRampEntry → Option BetRampEntry
  | [], selected => selected
  | s :: rest, selected =>
    if fl ≥ s.tc_floor then betWalk fl rest (some s) else selected

/-- Errors of the embedded engine: `crash` models a Python exception
(out-of-range indexing such as `ramp_steps[0]` on an empty ramp), `fuel`
models running out of loop fuel (the real loops are unbounded). -/
inductive SimError where
  | crash
  | fuel
deriving DecidableEq, Repr

/-- `choose_bet`: select the bet for the floored true count; an empty ramp
reaches `ramp_steps[0]` and raises `IndexError`. -/
def choose_bet (true_count : ℚ) (ramp_steps : List BetRampEntry) (unit_size : ℚ) :
    Except SimError ℚ :=
  let tc_floor := ⌊true_count⌋
  match betWalk tc_floor ramp_steps none with
  | some s => .ok (s.units * unit_size)
  | none =>
    match ramp_steps with
    | [] => .error .crash
    | s :: _ => .ok (s.units * unit_size)

/-- A hand finalized by the player-queue loop, awaiting resolution
(the dict appended to `finished_hands`). -/
structure FinishedHand where
  cards : List Card
  bet : ℚ
  surrendered : Bool
  doubled : Bool
  bust : Bool
deriving DecidableEq, Repr

/-- One iteration of the `for fh in finished_hands` resolution loop:
the profit of a single finalized hand against the dealer total,
insurance payout included. -/
def handProfit (fh : FinishedHand) (dealer_total : ℕ) (insurance_payout : ℚ) : ℚ :=
  let (player_total, _) := hand_value fh.cards
  if fh.surrendered then -(1 / 2) * fh.bet + insurance_payout
  else if fh.bust then -fh.bet + insurance_payout
  else if dealer_total > 21 then fh.bet + insurance_payout
  else if player_total > dealer_total then fh.bet + insurance_payout
  else if player_total < dealer_total then -fh.bet + insurance_payout
  else insurance_payout

/-- `round_profit`: the sum of the per-hand profits of the resolution loop. -/
def resolveHands (fhs : List FinishedHand) (dealer_total : ℕ) (insurance_payout : ℚ) : ℚ :=
  (fhs.map (fun fh => handProfit fh dealer_total insurance_payout)).sum

/-- Per-TC-bucket streaming statistics
(`{"n_total": .., "n_iba": .., "n_zero": .., "mean": .., "m2": ..}`). -/
structure BucketStat where
  n_total : ℚ
  n_iba : ℚ
  n_zero : ℚ
  mean : ℚ
  m2 : ℚ
deriving DecidableEq, Repr

/-- The zero bucket created by `bucket_stats`' `setdefault`. -/
def BucketStat.init : BucketStat := ⟨0, 0, 0, 0, 0⟩

/-- The Welford update performed by `update_iba_stats` on a bucket for one
bet-normalized round return `x`. -/
def welford_update (st : BucketStat) (x : ℚ) : BucketStat :=
  let n := st.n_iba + 1
  let delta := x - st.mean
  let mean := st.mean + delta / n
  { st with n_iba := n, mean := mean, m2 := st.m2 + delta * (x - mean) }

/-- Welford statistics of a whole series, one `update_iba_stats` call per
element, starting from the fresh bucket. -/
def welford_run (xs : List ℚ) : BucketStat :=
  xs.foldl welford_update BucketStat.init

/-- The merged per-bucket dict of `aggregate_chunks`, including its two
accumulator keys `"sum"` and `"sum_sq"`. -/
structure MergedStat where
  n_total : ℚ
  n_iba : ℚ
  n_zero : ℚ
  mean : ℚ
  m2 : ℚ
  sum : ℚ
  sum_sq : ℚ
deriving DecidableEq, Repr

/-- The fresh merged dict of `aggregate_chunks`. -/
def MergedStat.init : MergedStat := ⟨0, 0, 0, 0, 0, 0, 0⟩

/-- One chunk's contribution to a bucket in `aggregate_chunks`' merge loop:
counts always add; `sum += mean·n_iba` and `sum_sq += m2 + n_iba·mean²`
only when the chunk's `n_iba > 0`. -/
def merge_add (m : MergedStat) (stat : BucketStat) : MergedStat :=
  let m := { m with
    n_total := m.n_total + stat.n_total
    n_iba := m.n_iba + stat.n_iba
    n_zero := m.n_zero + stat.n_zero }
  if stat.n_iba > 0 then
    { m with
      sum := m.sum + stat.mean * stat.n_iba
      sum_sq := m.sum_sq + (stat.m2 + stat.n_iba * stat.mean ^ 2) }
  else m

/-- `aggregate_chunks`' finalization of one merged bucket: recover
`mean = sum / n_iba` and `m2 = max (sum_sq - n_iba·mean²) 0`. -/
def merge_finalize (m : MergedStat) : MergedStat :=
  if m.n_iba > 0 then
    let mean := m.sum / m.n_iba
    { m with mean := mean, m2 := max (m.sum_sq - m.n_iba * mean ^ 2) 0 }
  else m

/-- `aggregate_chunks` restricted to one TC bucket: fold the chunks'
statistics for that bucket and finalize. -/
def aggregate_bucket (stats : List BucketStat) : MergedStat :=
  merge_finalize (stats.foldl merge_add MergedStat.init)

/-! ### C6: concrete pair-strategy actions -/

/-- C6 counterexample: the claim asserts `pair_strategy("9","7") = "P"`,
but the table returns "S" for a pair of nines against a seven (the
nine-branch splits only against 2-6, 8, 9). -/
theorem pair_strategy_nines_vs_seven_stand :
    pair_strategy_action Card.c9 Card.c7 defaultRules = "S" ∧
    pair_strategy_action Card.c9 Card.c7 defaultRules ≠ "P" := by
  constructor <;> decide

/-- C6 (amended): for every `Rules` value, `pair_strategy_action` returns
"P" for a pair of eights versus a ten upcard, "S" for a pair of tens versus
a six, and "S" (not "P") for a pair of nines versus a seven. -/
theorem pair_strategy_concrete_actions (rules : Rules) :
    pair_strategy_action Card.c8 Card.cT rules = "P" ∧
    pair_strategy_action Card.cT Card.c6 rules = "S" ∧
    pair_strategy_action Card.c9 Card.c7 rules = "S" := by
  refine ⟨rfl, rfl, rfl⟩

/-! ### C7: deck estimation -/

/-- C7: `estimate_decks` returns `max (remaining/52) 0.25` when `step ≤ 0`,
and otherwise quantizes `(remaining/52)/step` with the selected rounding
mode (Python `round`, i.e. half-to-even, for any mode other than "floor"
and "ceil"), scaled by `step` and clamped to at least `step`; including the
three concrete cases of the spec. -/
theorem estimate_decks_spec :
    (∀ (rc : ℤ) (step : ℚ) (rounding : String), step ≤ 0 →
      estimate_decks rc step rounding = max ((rc : ℚ) / 52) (1 / 4)) ∧
    (∀ (rc : ℤ) (step : ℚ), 0 < step →
      estimate_decks rc step "floor" = max ((⌊(rc : ℚ) / 52 / step⌋ : ℚ) * step) step ∧
      estimate_decks rc step "ceil" = max ((⌈(rc : ℚ) / 52 / step⌉ : ℚ) * step) step ∧
      ∀ rounding : String, rounding ≠ "floor" → rounding ≠ "ceil" →
        estimate_decks rc step rounding =
          max ((pythonRound ((rc : ℚ) / 52 / step) : ℚ) * step) step) ∧
    estimate_decks 60 1 "ceil" = 2 ∧
    estimate_decks 60 (1 / 2) "nearest" = 1 ∧
    (∀ rounding : String, estimate_decks 60 0 rounding = 60 / 52) := by
  refine ⟨?_, ?_, ?_, ?_, ?_⟩
  · intro rc step rounding h
    simp only [estimate_decks, if_pos h]
  · intro rc step h
    have hns : ¬ step ≤ 0 := not_le.mpr h
    refine ⟨?_, ?_, ?_⟩
    · simp only [estimate_decks, if_neg hns, if_true]
    · simp only [estimate_decks, if_neg hns, if_true]
      rw [if_neg (by decide : ¬ ("ceil" = "floor"))]
    · intro rounding h1 h2
      simp only [estimate_decks, if_neg hns]
      rw [if_neg h1, if_neg h2]
  · have h1 : ⌈((60 : ℤ) : ℚ) / 52 / 1⌉ = 2 := by
      rw [Int.ceil_eq_iff]
      norm_num
    simp only [estimate_decks]
    rw [if_neg (by norm_num : ¬ (1 : ℚ) ≤ 0),
      if_neg (by decide : ¬ ("ceil" = "floor"))]
    simp only [if_true]
    rw [h1]
    norm_num
  · have hfl : ⌊((60 : ℤ) : ℚ) / 52 / (1 / 2)⌋ = 2 := by
      rw [Int.floor_eq_iff]
      norm_num
    have h1 : pythonRound (((60 : ℤ) : ℚ) / 52 / (1 / 2)) = 2 := by
      rw [pythonRound, hfl]
      norm_num
    simp only [estimate_decks]
    rw [if_neg (by norm_num : ¬ (1 : ℚ) / 2 ≤ 0),
      if_neg (by decide : ¬ ("nearest" = "floor")),
      if_neg (by decide : ¬ ("nearest" = "ceil")), h1]
    norm_num
  · intro rounding
    have h : (0 : ℚ) ≤ 0 := le_refl 0
    simp only [estimate_decks, if_pos h]
    rw [max_eq_left (by norm_num)]
    norm_num

/-- C7 witness: the spec at concrete inputs, hypotheses discharged. -/
theorem estimate_decks_spec_witness :
    estimate_decks 104 0 "nearest" = max ((104 : ℚ) / 52) (1 / 4) ∧
    estimate_decks 60 (1 / 2) "floor" =
      max ((⌊(60 : ℚ) / 52 / (1 / 2)⌋ : ℚ) * (1 / 2)) (1 / 2) ∧
    estimate_decks 60 1 "ceil" = 2 :=
  ⟨estimate_decks_spec.1 104 0 "nearest" (by norm_num),
   (estimate_decks_spec.2.1 60 (1 / 2) (by norm_num)).1,
   estimate_decks_spec.2.2.1⟩

/-! ### C1: deviation selection order -/

/-- C1 counterexample: with the sorted entry list `[(tc_floor 1, "H"),
(tc_floor 2, "S")]` for one hand key and true count 2, both entries have
`tc_floor ≤ ⌊tc⌋`, the last being the one at 2 with action "S" — but
`apply_deviation` returns "H", the action of the first matching entry. -/
theorem apply_deviation_not_last_entry :
    apply_deviation "16vT" 2
        [("16vT", [⟨"16vT", 1, "H"⟩, ⟨"16vT", 2, "S"⟩])] = "H" ∧
    (1 : ℤ) ≤ ⌊(2 : ℚ)⌋ ∧ (2 : ℤ) ≤ ⌊(2 : ℚ)⌋ ∧
    ("H" : String) ≠ "S" := by
  refine ⟨by decide, by decide, by decide, by decide⟩

/-- `firstMatch` is `List.find?` on the `tc_floor ≤ floor` test. -/
lemma firstMatch_eq_find (fl : ℤ) (ds : List Deviation) :
    firstMatch fl ds = (ds.find? fun d => decide (d.tc_floor ≤ fl)).map Deviation.action := by
  induction ds with
  | nil => rfl
  | cons d ds ih =>
    by_cases h : d.tc_floor ≤ fl
    · simp [firstMatch, List.find?, h, ge_iff_le]
    · simp [firstMatch, List.find?, h, ge_iff_le, ih]

/-- C1 (amended): `apply_deviation` returns the action of the FIRST entry
(in list order, hence the lowest `tc_floor` for ascending-sorted lists)
whose `tc_floor ≤ ⌊tc⌋`, checking key `K` before `K_surrender`; in
particular, whenever the first entry of a key's list already satisfies
`tc_floor ≤ ⌊tc⌋`, every later entry — e.g. one at `tc_floor + 1` — is
ignored. -/
theorem apply_deviation_selects_first_entry :
    (∀ (hk : String) (tc : ℚ) (devs : DevIndex),
      apply_deviation hk tc devs =
        match (devLookup hk devs).bind
            (fun ds => (ds.find? fun d => decide (d.tc_floor ≤ ⌊tc⌋)).map Deviation.action) with
        | some a => a
        | none =>
          match (devLookup (hk ++ "_surrender") devs).bind
              (fun ds => (ds.find? fun d => decide (d.tc_floor ≤ ⌊tc⌋)).map Deviation.action) with
          | some a => a
          | none => "") ∧
    (∀ (hk : String) (tc : ℚ) (d1 d2 : Deviation) (rest : List Deviation),
      d1.tc_floor ≤ ⌊tc⌋ →
      apply_deviation hk tc [(hk, d1 :: d2 :: rest)] = d1.action) := by
  constructor
  · intro hk tc devs
    simp only [apply_deviation, firstMatch_eq_find]
  · intro hk tc d1 d2 rest h
    simp [apply_deviation, devLookup, firstMatch, ge_iff_le, h]

/-- C1 witness: the first matching entry (tc_floor 1, action "H") wins at
true count 2 even though a later entry at tc_floor 2 also matches. -/
theorem apply_deviation_selects_first_entry_witness :
    (1 : ℤ) ≤ ⌊(2 : ℚ)⌋ ∧
    apply_deviation "16v9" 2
        [("16v9", [⟨"16v9", 1, "H"⟩, ⟨"16v9", 2, "S"⟩])] = "H" :=
  ⟨by decide,
   apply_deviation_selects_first_entry.2 "16v9" 2 ⟨"16v9", 1, "H"⟩ ⟨"16v9", 2, "S"⟩ []
     (by decide)⟩

/-! ### C3: insurance payout added once per finalized hand -/

/-- C3: every branch of the per-hand resolution (surrender, bust, dealer
bust, win, loss, push) adds the full insurance payout to that hand's
profit, so a round with `n` finished hands accumulates the insurance
payout exactly `n` times in `round_profit`. -/
theorem insurance_added_per_finished_hand :
    (∀ (fh : FinishedHand) (dealer_total : ℕ) (ins : ℚ),
      handProfit fh dealer_total ins = handProfit fh dealer_total 0 + ins) ∧
    (∀ (fhs : List FinishedHand) (dealer_total : ℕ) (ins : ℚ),
      resolveHands fhs dealer_total ins =
        resolveHands fhs dealer_total 0 + (fhs.length : ℚ) * ins) := by
  have hhand : ∀ (fh : FinishedHand) (dealer_total : ℕ) (ins : ℚ),
      handProfit fh dealer_total ins = handProfit fh dealer_total 0 + ins := by
    intro fh dealer_total ins
    unfold handProfit
    rcases hv : hand_value fh.cards with ⟨pt, soft⟩
    simp only [hv]
    split_ifs <;> ring
  refine ⟨hhand, ?_⟩
  intro fhs dealer_total ins
  induction fhs with
  | nil => simp [resolveHands]
  | cons fh rest ih =>
    simp only [resolveHands, List.map_cons, List.sum_cons, List.length_cons] at *
    rw [ih, hhand]
    push_cast
    ring

/-! ### C4: the parallel Welford merge is exact -/

/-- Characterization of the Welford fold.  Division follows Lean's
`x / 0 = 0` convention, so with the side condition that an empty prefix has
zero sum and zero sum of squares, the formulas need no case split. -/
lemma welford_foldl_char (xs : List ℚ) :
    ∀ (st : BucketStat) (n : ℕ) (s q : ℚ),
      st.n_iba = n → st.mean = s / n → st.m2 = q - s ^ 2 / n →
      (n = 0 → s = 0 ∧ q = 0) →
      (xs.foldl welford_update st).n_iba = ((n + xs.length : ℕ) : ℚ) ∧
      (xs.foldl welford_update st).mean = (s + xs.sum) / ((n + xs.length : ℕ) : ℚ) ∧
      (xs.foldl welford_update st).m2 =
        (q + (xs.map (fun x => x ^ 2)).sum) -
          (s + xs.sum) ^ 2 / ((n + xs.length : ℕ) : ℚ) ∧
      (xs.foldl welford_update st).n_total = st.n_total ∧
      (xs.foldl welford_update st).n_zero = st.n_zero := by
  induction xs with
  | nil =>
    intro st n s q h1 h2 h3 _h0
    refine ⟨by simpa using h1, by simpa using h2, by simpa using h3, by simp, by simp⟩
  | cons x xs ih =>
    intro st n s q h1 h2 h3 h0
    have hmean : (welford_update st x).mean = (s + x) / ((n + 1 : ℕ) : ℚ) := by
      simp only [welford_update, h1, h2]
      rcases Nat.eq_zero_or_pos n with hn | hn
      · rcases h0 hn with ⟨hs, _⟩
        subst hs hn
        norm_num
      · have hq : (n : ℚ) ≠ 0 := by positivity
        push_cast
        field_simp
        ring
    have hm2 : (welford_update st x).m2 =
        (q + x ^ 2) - (s + x) ^ 2 / ((n + 1 : ℕ) : ℚ) := by
      simp only [welford_update, h1, h2, h3]
      rcases Nat.eq_zero_or_pos n with hn | hn
      · rcases h0 hn with ⟨hs, hq⟩
        subst hs hq hn
        norm_num
      · have hq : (n : ℚ) ≠ 0 := by positivity
        push_cast
        field_simp
        ring
    have hn' : (welford_update st x).n_iba = ((n + 1 : ℕ) : ℚ) := by
      simp only [welford_update, h1]
      push_cast
      ring
    have h0' : (n + 1 : ℕ) = 0 → (s + x = 0 ∧ q + x ^ 2 = 0) := by
      intro h
      exact absurd h (Nat.succ_ne_zero n)
    have := ih (welford_update st x) (n + 1) (s + x) (q + x ^ 2) hn' hmean hm2 h0'
    rcases this with ⟨c1, c2, c3, c4, c5⟩
    have hten : (welford_update st x).n_total = st.n_total := rfl
    have hzen : (welford_update st x).n_zero = st.n_zero := rfl
    refine ⟨?_, ?_, ?_, ?_, ?_⟩
    · rw [List.foldl_cons, c1]
      push_cast [List.length_cons]
      ring
    · rw [List.foldl_cons, c2]
      simp only [List.sum_cons, List.length_cons]
      congr 1
      · ring
      · push_cast
        ring
    · rw [List.foldl_cons, c3]
      simp only [List.sum_cons, List.map_cons, List.length_cons]
      have hd : ((n + 1 + xs.length : ℕ) : ℚ) = ((n + (xs.length + 1) : ℕ) : ℚ) := by
        push_cast
        ring
      rw [hd]
      ring
    · rw [List.foldl_cons, c4, hten]
    · rw [List.foldl_cons, c5, hzen]

/-- The Welford statistics of a series are its count, its arithmetic mean,
and its sum of squared deviations `Σx² − (Σx)²/n`. -/
lemma welford_run_char (xs : List ℚ) :
    (welford_run xs).n_iba = (xs.length : ℚ) ∧
    (welford_run xs).mean = xs.sum / (xs.length : ℚ) ∧
    (welford_run xs).m2 =
      (xs.map (fun x => x ^ 2)).sum - xs.sum ^ 2 / (xs.length : ℚ) ∧
    (welford_run xs).n_total = 0 ∧ (welford_run xs).n_zero = 0 := by
  have := welford_foldl_char xs BucketStat.init 0 0 0 (by rfl) (by norm_num [BucketStat.init])
    (by norm_num [BucketStat.init]) (fun _ => ⟨rfl, rfl⟩)
  simpa [welford_run, BucketStat.init] using this

/-- `L · (S/L)² = S²/L` for nonzero `L`. -/
lemma mul_div_sq_cancel (L S : ℚ) (hL : L ≠ 0) : L * (S / L) ^ 2 = S ^ 2 / L := by
  field_simp
  ring

/-- Expansion of a list's sum of squared deviations about a point `μ`. -/
lemma sum_sq_dev_expand (xs : List ℚ) (μ : ℚ) :
    (xs.map (fun x => (x - μ) ^ 2)).sum =
      (xs.map (fun x => x ^ 2)).sum - 2 * μ * xs.sum + (xs.length : ℚ) * μ ^ 2 := by
  induction xs with
  | nil => simp
  | cons y ys ih =>
    simp only [List.map_cons, List.sum_cons, List.length_cons, ih]
    push_cast
    ring

/-- `(Σx)²/n ≤ Σx²` for a series of length `n` (variance nonnegativity). -/
lemma sq_sum_div_le_sum_sq (xs : List ℚ) :
    xs.sum ^ 2 / (xs.length : ℚ) ≤ (xs.map (fun x => x ^ 2)).sum := by
  rcases Nat.eq_zero_or_pos xs.length with h | h
  · rw [List.length_eq_zero] at h
    subst h
    norm_num
  · have hlen : ((xs.length : ℚ)) ≠ 0 := by positivity
    have hnn : 0 ≤ (xs.map (fun x => (x - xs.sum / (xs.length : ℚ)) ^ 2)).sum := by
      apply List.sum_nonneg
      intro a ha
      rcases List.mem_map.mp ha with ⟨x, _, rfl⟩
      positivity
    rw [sum_sq_dev_expand xs (xs.sum / (xs.length : ℚ))] at hnn
    have hkey : (xs.map (fun x => x ^ 2)).sum - 2 * (xs.sum / (xs.length : ℚ)) * xs.sum +
        (xs.length : ℚ) * (xs.sum / (xs.length : ℚ)) ^ 2 =
        (xs.map (fun x => x ^ 2)).sum - xs.sum ^ 2 / (xs.length : ℚ) := by
      field_simp
      ring
    rw [hkey] at hnn
    linarith

/-- Characterization of the `aggregate_chunks` bucket fold: the
accumulators `n_iba`, `sum`, `sum_sq` collect the chunks' counts, sums,
and sums of squares; `mean` and `m2` are untouched until finalization. -/
lemma merge_foldl_char (seriess : List (List ℚ)) :
    ∀ m : MergedStat,
      ((seriess.map welford_run).foldl merge_add m).n_iba =
        m.n_iba + (seriess.map (fun xs => (xs.length : ℚ))).sum ∧
      ((seriess.map welford_run).foldl merge_add m).sum =
        m.sum + (seriess.map List.sum).sum ∧
      ((seriess.map welford_run).foldl merge_add m).sum_sq =
        m.sum_sq + (seriess.map (fun xs => (xs.map (fun x => x ^ 2)).sum)).sum ∧
      ((seriess.map welford_run).foldl merge_add m).mean = m.mean ∧
      ((seriess.map welford_run).foldl merge_add m).m2 = m.m2 := by
  induction seriess with
  | nil => intro m; simp
  | cons xs rest ih =>
    intro m
    rcases welford_run_char xs with ⟨w1, w2, w3, _, _⟩
    have hstep : (merge_add m (welford_run xs)).n_iba = m.n_iba + (xs.length : ℚ) ∧
        (merge_add m (welford_run xs)).sum = m.sum + xs.sum ∧
        (merge_add m (welford_run xs)).sum_sq =
          m.sum_sq + (xs.map (fun x => x ^ 2)).sum ∧
        (merge_add m (welford_run xs)).mean = m.mean ∧
        (merge_add m (welford_run xs)).m2 = m.m2 := by
      rcases Nat.eq_zero_or_pos xs.length with hlen | hlen
      · rw [List.length_eq_zero] at hlen
        subst hlen
        have hguard : ¬ (welford_run []).n_iba > 0 := by
          rw [w1]; norm_num
        simp only [merge_add]
        rw [if_neg hguard]
        dsimp only
        rw [w1]
        norm_num
      · have hlenq : ((xs.length : ℚ)) ≠ 0 := by positivity
        have hguard : (welford_run xs).n_iba > 0 := by
          rw [w1]
          exact_mod_cast hlen
        simp only [merge_add]
        rw [if_pos hguard]
        dsimp only
        refine ⟨by rw [w1], ?_, ?_, rfl, rfl⟩
        · rw [w1, w2, div_mul_cancel₀ _ hlenq]
        · rw [w1, w2, w3, mul_div_sq_cancel _ _ hlenq]
          ring
    rcases hstep with ⟨s1, s2, s3, s4, s5⟩
    rcases ih (merge_add m (welford_run xs)) with ⟨i1, i2, i3, i4, i5⟩
    simp only [List.map_cons, List.foldl_cons, List.sum_cons]
    rw [i1, i2, i3, i4, i5, s1, s2, s3, s4, s5]
    refine ⟨by ring, by ring, by ring, rfl, rfl⟩

/-- C4: merging chunk statistics as `aggregate_chunks` does — per chunk
`sum_x = mean·n_iba`, `sum_x² = m2 + n_iba·mean²`, summed across chunks,
then `mean = Σsum_x / Σn_iba` and `m2 = max (Σsum_x² − Σn_iba·mean²) 0` —
recovers exactly the Welford statistics of the concatenated series, and
the merged result is independent of chunk order. -/
theorem aggregate_bucket_eq_welford_concat :
    (∀ seriess : List (List ℚ),
      (aggregate_bucket (seriess.map welford_run)).n_iba =
        (welford_run seriess.flatten).n_iba ∧
      (aggregate_bucket (seriess.map welford_run)).mean =
        (welford_run seriess.flatten).mean ∧
      (aggregate_bucket (seriess.map welford_run)).m2 =
        (welford_run seriess.flatten).m2) ∧
    (∀ seriess seriess₂ : List (List ℚ), seriess.Perm seriess₂ →
      (aggregate_bucket (seriess.map welford_run)).n_iba =
        (aggregate_bucket (seriess₂.map welford_run)).n_iba ∧
      (aggregate_bucket (seriess.map welford_run)).mean =
        (aggregate_bucket (seriess₂.map welford_run)).mean ∧
      (aggregate_bucket (seriess.map welford_run)).m2 =
        (aggregate_bucket (seriess₂.map welford_run)).m2) := by
  have hlen : ∀ seriess : List (List ℚ),
      (seriess.map (fun xs => (xs.length : ℚ))).sum = (seriess.flatten.length : ℚ) := by
    intro seriess
    induction seriess with
    | nil => simp
    | cons xs rest ih =>
      simp only [List.map_cons, List.sum_cons, List.flatten_cons, List.length_append, ih]
      push_cast
      ring
  have hsum : ∀ seriess : List (List ℚ),
      (seriess.map List.sum).sum = seriess.flatten.sum := by
    intro seriess
    induction seriess with
    | nil => simp
    | cons xs rest ih =>
      simp only [List.map_cons, List.sum_cons, List.flatten_cons, List.sum_append, ih]
  have hsq : ∀ seriess : List (List ℚ),
      (seriess.map (fun xs => (xs.map (fun x => x ^ 2)).sum)).sum =
        (seriess.flatten.map (fun x => x ^ 2)).sum := by
    intro seriess
    induction seriess with
    | nil => simp
    | cons xs rest ih =>
      simp only [List.map_cons, List.sum_cons, List.flatten_cons, List.map_append,
        List.sum_append, ih]
  have hmain : ∀ seriess : List (List ℚ),
      (aggregate_bucket (seriess.map welford_run)).n_iba =
        (welford_run seriess.flatten).n_iba ∧
      (aggregate_bucket (seriess.map welford_run)).mean =
        (welford_run seriess.flatten).mean ∧
      (aggregate_bucket (seriess.map welford_run)).m2 =
        (welford_run seriess.flatten).m2 := by
    intro seriess
    rcases merge_foldl_char seriess MergedStat.init with ⟨f1, f2, f3, f4, f5⟩
    rcases welford_run_char seriess.flatten with ⟨w1, w2, w3, _, _⟩
    rw [hlen, show MergedStat.init.n_iba = (0 : ℚ) from rfl, zero_add] at f1
    rw [hsum, show MergedStat.init.sum = (0 : ℚ) from rfl, zero_add] at f2
    rw [hsq, show MergedStat.init.sum_sq = (0 : ℚ) from rfl, zero_add] at f3
    rw [show MergedStat.init.mean = (0 : ℚ) from rfl] at f4
    rw [show MergedStat.init.m2 = (0 : ℚ) from rfl] at f5
    rcases Nat.eq_zero_or_pos seriess.flatten.length with hN | hN
    · rw [List.length_eq_zero] at hN
      have hguard : ¬ ((seriess.map welford_run).foldl merge_add MergedStat.init).n_iba > 0 := by
        rw [f1, hN]
        norm_num
      unfold aggregate_bucket merge_finalize
      rw [if_neg hguard]
      refine ⟨?_, ?_, ?_⟩
      · rw [f1, w1]
      · rw [f4, w2, hN]
        norm_num
      · rw [f5, w3, hN]
        norm_num
    · have hNq : ((seriess.flatten.length : ℚ)) ≠ 0 := by positivity
      have hguard : ((seriess.map welford_run).foldl merge_add MergedStat.init).n_iba > 0 := by
        rw [f1]
        exact_mod_cast hN
      unfold aggregate_bucket merge_finalize
      rw [if_pos hguard]
      dsimp only
      refine ⟨?_, ?_, ?_⟩
      · rw [f1, w1]
      · rw [f2, f1, w2]
      · rw [f3, f2, f1, w3]
        rw [mul_div_sq_cancel _ _ hNq, max_eq_left]
        have := sq_sum_div_le_sum_sq seriess.flatten
        linarith
  refine ⟨hmain, ?_⟩
  intro s1 s2 hperm
  rcases hmain s1 with ⟨p1, p2, p3⟩
  rcases hmain s2 with ⟨q1, q2, q3⟩
  rcases welford_run_char s1.flatten with ⟨u1, u2, u3, _, _⟩
  rcases welford_run_char s2.flatten with ⟨v1, v2, v3, _, _⟩
  have e1 : ((s1.flatten.length : ℚ)) = (s2.flatten.length : ℚ) := by
    rw [← hlen s1, ← hlen s2]
    exact (hperm.map _).sum_eq
  have e2 : s1.flatten.sum = s2.flatten.sum := by
    rw [← hsum s1, ← hsum s2]
    exact (hperm.map _).sum_eq
  have e3 : (s1.flatten.map (fun x => x ^ 2)).sum =
      (s2.flatten.map (fun x => x ^ 2)).sum := by
    rw [← hsq s1, ← hsq s2]
    exact (hperm.map _).sum_eq
  refine ⟨?_, ?_, ?_⟩
  · rw [p1, q1, u1, v1, e1]
  · rw [p2, q2, u2, v2, e1, e2]
  · rw [p3, q3, u3, v3, e1, e2, e3]

/-- C4 witness: the merge at a concrete pair of chunks, with the chunk
permutation hypothesis discharged. -/
theorem aggregate_bucket_eq_welford_concat_witness :
    ([[(1 : ℚ)], [2]]).Perm [[2], [1]] ∧
    (aggregate_bucket ([[(1 : ℚ)], [2]].map welford_run)).mean =
      (aggregate_bucket ([[(2 : ℚ)], [1]].map welford_run)).mean :=
  ⟨List.Perm.swap [2] [1] [],
   (aggregate_bucket_eq_welford_concat.2 [[1], [2]] [[2], [1]]
     (List.Perm.swap [2] [1] [])).2.1⟩

/-! ### The engine: state, shoe, and round machine -/

/-- `models.CountingSystem`; `tags` is total, folding in the Python
`dict.get(card, 0)` default. -/
structure CountingSystem where
  name : String
  tags : Card → ℤ
  true_count_divisor : String

/-- The default Hi-Lo tag table. -/
def hiLoTags : Card → ℤ
  | .c2 | .c3 | .c4 | .c5 | .c6 => 1
  | .c7 | .c8 | .c9 => 0
  | .cT | .cJ | .cQ | .cK | .cA => -1

/-- `models.SimulationRequest` (the fields the engine reads).  The numpy
generator seeded in `run_simulation` is abstracted as the `shuffle`
oracle, one entry per `rng.shuffle` call; `seed`, `processes`, and the
debug-log fields are not modelled (logging only). -/
structure SimulationRequest where
  rules : Rules
  counting_system : CountingSystem
  deviations : List Deviation
  bet_ramp : BetRamp
  bankroll : Option ℚ
  unit_size : ℚ
  hands : ℕ
  deck_estimation_step : ℚ
  deck_estimation_rounding : String
  use_estimated_tc_for_bet : Bool
  use_estimated_tc_for_deviations : Bool
  hands_per_hour : ℚ
  shuffle : ℕ → List Card → List Card

/-- One unshuffled deck block: four of each rank in `CARD_ORDER` order. -/
def deckBlock : List Card := CARD_ORDER.flatMap (fun c => List.replicate 4 c)

/-- The unshuffled shoe contents: `decks` copies of the deck block. -/
def unshuffledShoe : ℕ → List Card
  | 0 => []
  | d + 1 => deckBlock ++ unshuffledShoe d

/-- `build_shoe`: populate `4·decks` of each rank, then shuffle with the
oracle's `idx`-th permutation. -/
def build_shoe (req : SimulationRequest) (idx : ℕ) : List Card :=
  req.shuffle idx (unshuffledShoe req.rules.decks)

/-- Sparse integer-keyed histogram bump: `h[k] = h.get(k, 0) + 1`. -/
def bumpHist (h : List (ℤ × ℕ)) (k : ℤ) : List (ℤ × ℕ) :=
  match h with
  | [] => [(k, 1)]
  | (k', n) :: rest => if k' = k then (k', n + 1) :: rest else (k', n) :: bumpHist rest k

/-- `bucket_stats(k)` (a `setdefault` to the zero bucket) followed by a
field update. -/
def updateBucket (stats : List (ℤ × BucketStat)) (k : ℤ) (f : BucketStat → BucketStat) :
    List (ℤ × BucketStat) :=
  match stats with
  | [] => [(k, f BucketStat.init)]
  | (k', b) :: rest => if k' = k then (k', f b) :: rest else (k', b) :: updateBucket rest k f

/-- `update_iba_stats`: Welford-update the bucket with `x = profit / bet`,
skipped entirely when the bet is nonpositive. -/
def update_iba_stats (stats : List (ℤ × BucketStat)) (tc_bucket : ℤ) (profit bet_amt : ℚ) :
    List (ℤ × BucketStat) :=
  if bet_amt ≤ 0 then stats
  else updateBucket stats tc_bucket (fun st => welford_update st (profit / bet_amt))

/-- `last_round_result` values. -/
inductive RoundResult where
  | win | loss | push
deriving DecidableEq, Repr

/-- `"win" if profit > 0 else "loss" if profit < 0 else "push"`. -/
def roundResultOf (profit : ℚ) : RoundResult :=
  if profit > 0 then .win else if profit < 0 then .loss else .push

/-- The engine's per-worker mutable state. -/
structure SimState where
  shoe : List Card
  cut_card : ℕ
  pointer : ℕ
  running_count : ℤ
  total_profit : ℚ
  total_sq_profit : ℚ
  total_initial_bet : ℚ
  rounds_played : ℕ
  tc_histogram : List (ℤ × ℕ)
  tc_histogram_est : List (ℤ × ℕ)
  tc_stats : List (ℤ × BucketStat)
  last_round_result : Option RoundResult
  last_round_played : Bool
  is_wonged_out : Bool
  shuffle_idx : ℕ
deriving DecidableEq, Repr

/-- `int(len(shoe) * penetration)`: Python `int()` truncates toward zero;
the product is nonnegative for every valid penetration, so this is the
floor. -/
def cutCardOf (shoeLen : ℕ) (penetration : ℚ) : ℕ :=
  (⌊(shoeLen : ℚ) * penetration⌋).toNat

/-- The engine state after `run_simulation`'s set-up lines. -/
def initState (req : SimulationRequest) : SimState :=
  let shoe := build_shoe req 0
  { shoe := shoe
    cut_card := cutCardOf shoe.length req.rules.penetration
    pointer := 0
    running_count := 0
    total_profit := 0
    total_sq_profit := 0
    total_initial_bet := 0
    rounds_played := 0
    tc_histogram := []
    tc_histogram_est := []
    tc_stats := []
    last_round_result := none
    last_round_played := false
    is_wonged_out := false
    shuffle_idx := 1 }

/-- The reshuffle branch of `draw_card`: rebuild and reshuffle the shoe,
reset the cut card, the pointer, and the running count. -/
def reshuffleState (req : SimulationRequest) (s : SimState) : SimState :=
  let newShoe := build_shoe req s.shuffle_idx
  { s with
    shoe := newShoe
    cut_card := cutCardOf newShoe.length req.rules.penetration
    pointer := 0
    running_count := 0
    shuffle_idx := s.shuffle_idx + 1 }

/-- `draw_card`: reshuffle first when the pointer reached the cut card,
then return `shoe[pointer]`, advancing the pointer and adding the card's
tag to the running count.  An out-of-range access is a crash. -/
def draw_card (req : SimulationRequest) (s : SimState) : Except SimError (Card × SimState) :=
  let s := if s.pointer ≥ s.cut_card then reshuffleState req s else s
  match s.shoe.get? s.pointer with
  | none => .error .crash
  | some card =>
    .ok (card, { s with
      pointer := s.pointer + 1
      running_count := s.running_count + req.counting_system.tags card })

/-- The true-count block repeated at the top of the round loop and of
each player-hand iteration: `(true_count_raw, true_count_est)`. -/
def tcInfo (req : SimulationRequest) (s : SimState) : ℚ × ℚ :=
  let remaining_cards : ℤ := (s.shoe.length : ℤ) - (s.pointer : ℤ)
  let remaining_decks : ℚ := max ((remaining_cards : ℚ) / 52) (1 / 4)
  let true_count_raw := (s.running_count : ℚ) / remaining_decks
  let est_decks := estimate_decks remaining_cards req.deck_estimation_step
    req.deck_estimation_rounding
  let true_count_est := (s.running_count : ℚ) / est_decks
  (true_count_raw, true_count_est)

/-- `tc_for_bet`: the estimated or raw true count per configuration. -/
def tc_for_bet (req : SimulationRequest) (s : SimState) : ℚ :=
  if req.use_estimated_tc_for_bet then (tcInfo req s).2 else (tcInfo req s).1

/-- `tc_for_dev`: the estimated or raw true count per configuration. -/
def tc_for_dev (req : SimulationRequest) (s : SimState) : ℚ :=
  if req.use_estimated_tc_for_deviations then (tcInfo req s).2 else (tcInfo req s).1

/-- Dict insertion used to build `dev_index` (`setdefault(...).append`). -/
def devIndexAdd (idx : DevIndex) (dev : Deviation) : DevIndex :=
  match idx with
  | [] => [(dev.hand_key, [dev])]
  | (k, ds) :: rest =>
    if k = dev.hand_key then (k, ds ++ [dev]) :: rest else (k, ds) :: devIndexAdd rest dev

/-- Stable insertion by ascending `tc_floor`. -/
def insertDev (x : Deviation) : List Deviation → List Deviation
  | [] => [x]
  | y :: ys => if x.tc_floor < y.tc_floor then x :: y :: ys else y :: insertDev x ys

/-- Python's stable `sort(key = tc_floor)` on one key's entry list. -/
def sortDevs : List Deviation → List Deviation
  | [] => []
  | x :: xs => insertDev x (sortDevs xs)

/-- The engine's `dev_index`: deviations grouped by hand key in insertion
order, each key's list sorted ascending by `tc_floor`. -/
def dev_index (req : SimulationRequest) : DevIndex :=
  (req.deviations.foldl devIndexAdd []).map (fun p => (p.1, sortDevs p.2))

/-- The engine's sorted `ramp_steps`. -/
def ramp_steps (req : SimulationRequest) : List BetRampEntry :=
  sortSteps req.bet_ramp.steps

/-- `HandState` of the split-aware player queue. -/
structure HandState where
  cards : List Card
  bet : ℚ
  split_depth : ℕ
  is_split_aces : Bool
  can_double : Bool
deriving DecidableEq, Repr

/-- Outcome of one iteration of the inner `while True` player-hand loop:
split into two hands, finalize the hand, or keep playing it. -/
inductive StepResult where
  | split (left right : HandState)
  | finish (fh : FinishedHand)
  | again (hand : HandState)
deriving DecidableEq, Repr

/-- The action-dispatch part of the player-hand loop (after the split
branch): surrender, stand, double, or hit. -/
def handDispatch (req : SimulationRequest) (dealer0 : Card) (tc_for_dev : ℚ)
    (hand : HandState) (s : SimState) : Except SimError (StepResult × SimState) :=
  let action := choose_action hand.cards dealer0 tc_for_dev (dev_index req) req.rules
    hand.can_double
  if action = "R" ∧ req.rules.surrender then
    .ok (.finish { cards := hand.cards, bet := hand.bet, surrendered := true, doubled := false, bust := false }, s)
  else if action = "S" then
    .ok (.finish { cards := hand.cards, bet := hand.bet, surrendered := false, doubled := false, bust := false }, s)
  else if action = "D" ∧ hand.can_double then
    match draw_card req s with
    | .error e => .error e
    | .ok (c, s) =>
      let cards := hand.cards ++ [c]
      let (total, _) := hand_value cards
      .ok (.finish { cards := cards, bet := hand.bet * 2, surrendered := false, doubled := true, bust := decide (total > 21) }, s)
  else if hand.is_split_aces ∧ ¬ req.rules.hit_split_aces then
    .ok (.finish { cards := hand.cards, bet := hand.bet, surrendered := false, doubled := false, bust := false }, s)
  else
    match draw_card req s with
    | .error e => .error e
    | .ok (c, s) =>
      let cards := hand.cards ++ [c]
      let (total, _) := hand_value cards
      if total ≥ 21 then
        .ok (.finish { cards := cards, bet := hand.bet, surrendered := false, doubled := false, bust := decide (total > 21) }, s)
      else
        .ok (.again { hand with cards := cards }, s)

/-- One iteration of the player-hand loop: recompute the true count, try
the pair-split branch, otherwise dispatch the chosen action. -/
def handStep (req : SimulationRequest) (dealer0 : Card) (hand : HandState) (s : SimState) :
    Except SimError (StepResult × SimState) :=
  let tcd := tc_for_dev req s
  let splitPair : Option (Card × Card) :=
    match hand.cards with
    | [c0, c1] =>
      if c0 = c1 ∧ hand.split_depth < req.rules.max_splits ∧
          (c0 ≠ Card.cA ∨ req.rules.resplit_aces ∨ hand.split_depth = 0)
      then some (c0, c1) else none
    | _ => none
  match splitPair with
  | some (c0, c1) =>
    if pair_strategy_action c0 dealer0 req.rules = "P" then
      match draw_card req s with
      | .error e => .error e
      | .ok (cL, s) =>
        match draw_card req s with
        | .error e => .error e
        | .ok (cR, s) =>
          .ok (.split
            { cards := [c0, cL], bet := hand.bet, split_depth := hand.split_depth + 1, is_split_aces := c0 = Card.cA, can_double := req.rules.double_after_split && req.rules.double_any_two }
            { cards := [c1, cR], bet := hand.bet, split_depth := hand.split_depth + 1, is_split_aces := c1 = Card.cA, can_double := req.rules.double_after_split && req.rules.double_any_two }, s)
    else handDispatch req dealer0 tcd hand s
  | none => handDispatch req dealer0 tcd hand s

/-- The `while queue` loop, fueled: pop the head hand, step it, and push
split halves back at the head (left before right). -/
def playQueue (req : SimulationRequest) (dealer0 : Card) :
    ℕ → List HandState → List FinishedHand → SimState →
    Except SimError (List FinishedHand × SimState)
  | 0, _, _, _ => .error .fuel
  | _ + 1, [], finished, s => .ok (finished, s)
  | fuel + 1, hand :: queue, finished, s =>
    match handStep req dealer0 hand s with
    | .error e => .error e
    | .ok (.split left right, s) =>
      playQueue req dealer0 fuel (left :: right :: queue) finished s
    | .ok (.finish fh, s) => playQueue req dealer0 fuel queue (finished ++ [fh]) s
    | .ok (.again hand, s) => playQueue req dealer0 fuel (hand :: queue) finished s

/-- The dealer draw loop: hit under 17, and on soft 17 under H17. -/
def dealerPlay (req : SimulationRequest) :
    ℕ → List Card → SimState → Except SimError (List Card × SimState)
  | 0, _, _ => .error .fuel
  | fuel + 1, dealer, s =>
    let (dealer_total, dealer_soft) := hand_value dealer
    if dealer_total < 17 ∨ (dealer_total = 17 ∧ dealer_soft ∧ req.rules.hit_soft_17) then
      match draw_card req s with
      | .error e => .error e
      | .ok (c, s) => dealerPlay req fuel (dealer ++ [c]) s
    else .ok (dealer, s)

/-- Sum of the squared per-hand profits added to `total_sq_profit` by the
resolution loop. -/
def resolveHandsSq (fhs : List FinishedHand) (dealer_total : ℕ) (insurance_payout : ℚ) : ℚ :=
  (fhs.map (fun fh =>
    let profit := handProfit fh dealer_total insurance_payout
    profit * profit)).sum

/-- The played part of a round: bet, deal (player, player, dealer,
dealer), insurance, naturals short-circuit, player queue, dealer play,
resolution, and the aggregate updates. -/
def playRound (req : SimulationRequest) (fuel : ℕ) (tc_for_bet tc_for_dev : ℚ)
    (round_tc_bucket : ℤ) (s : SimState) : Except SimError SimState := do
  let bet ← choose_bet tc_for_bet (ramp_steps req) req.unit_size
  let s := { s with total_initial_bet := s.total_initial_bet + bet }
  let (p1, s) ← draw_card req s
  let (p2, s) ← draw_card req s
  let (d1, s) ← draw_card req s
  let (d2, s) ← draw_card req s
  let player_start := [p1, p2]
  let dealer := [d1, d2]
  let insurance_payout : ℚ :=
    if d1 = Card.cA ∧ apply_deviation "insurance" tc_for_dev (dev_index req) = "I" then
      let insurance_bet := bet / 2
      if is_blackjack dealer then insurance_bet * 2 else -insurance_bet
    else 0
  let dealer_has_bj := is_blackjack dealer
  let player_has_bj := is_blackjack player_start
  if dealer_has_bj ∨ player_has_bj then
    let profit :=
      insurance_payout +
        (if player_has_bj ∧ ¬ dealer_has_bj then bet * req.rules.blackjack_payout
         else if dealer_has_bj ∧ player_has_bj then 0
         else -bet)
    return { s with
      total_profit := s.total_profit + profit
      total_sq_profit := s.total_sq_profit + profit * profit
      tc_stats := update_iba_stats s.tc_stats round_tc_bucket profit bet
      rounds_played := s.rounds_played + 1
      last_round_result := some (roundResultOf profit)
      last_round_played := true }
  else do
    let firstHand : HandState :=
      { cards := player_start, bet := bet, split_depth := 0, is_split_aces := false, can_double := req.rules.double_any_two }
    let (finished_hands, s) ← playQueue req d1 fuel [firstHand] [] s
    let (dealer, s) ← dealerPlay req fuel dealer s
    let (dealer_total, _) := hand_value dealer
    let round_profit := resolveHands finished_hands dealer_total insurance_payout
    let sq_add := resolveHandsSq finished_hands dealer_total insurance_payout
    return { s with
      total_profit := s.total_profit + round_profit
      total_sq_profit := s.total_sq_profit + sq_add
      tc_stats := update_iba_stats s.tc_stats round_tc_bucket round_profit bet
      rounds_played := s.rounds_played + 1
      last_round_result := some (roundResultOf round_profit)
      last_round_played := true }

/-- The Wong-out state-entering policy (`policy or "anytime"` included). -/
def wongPolicyEnter (req : SimulationRequest) (s : SimState) : Bool :=
  let policy :=
    if req.bet_ramp.wong_out_policy = "" then "anytime" else req.bet_ramp.wong_out_policy
  if policy = "anytime" then true
  else if policy = "after_loss_only" then s.last_round_result = some RoundResult.loss
  else if policy = "after_hand_only" then s.last_round_played
  else s.is_wonged_out

/-- The `if not is_wonged_out` policy step of the Wong-out block. -/
def wongUpdate (req : SimulationRequest) (s : SimState) : SimState :=
  if ¬ s.is_wonged_out then { s with is_wonged_out := wongPolicyEnter req s } else s

/-- The top of every round-loop iteration: bump both histograms with the
floored raw/estimated true counts and `n_total` of the bet bucket. -/
def preRound (req : SimulationRequest) (s : SimState) : SimState :=
  let s0 := { s with tc_histogram := bumpHist s.tc_histogram ⌊(tcInfo req s).1⌋, tc_histogram_est := bumpHist s.tc_histogram_est ⌊(tcInfo req s).2⌋ }
  { s0 with tc_stats := updateBucket s0.tc_stats ⌊tc_for_bet req s⌋ (fun b => { b with n_total := b.n_total + 1 }) }

/-- One iteration of the main `while rounds_played < target_rounds` loop:
histograms and `n_total`, then Wong-out (skip: `n_zero`, two burned
cards), else the played round. -/
def simRound (req : SimulationRequest) (fuel : ℕ) (s : SimState) : Except SimError SimState :=
  let tcb := tc_for_bet req s
  let tcd := tc_for_dev req s
  let round_tc_bucket := ⌊tcb⌋
  let s1 := preRound req s
  match req.bet_ramp.wong_out_below with
  | none => playRound req fuel tcb tcd round_tc_bucket s1
  | some wob =>
    if ⌊tcb⌋ ≥ wob then
      playRound req fuel tcb tcd round_tc_bucket { s1 with is_wonged_out := false }
    else
      let s2 := wongUpdate req s1
      if s2.is_wonged_out then do
        let s3 := { s2 with tc_stats := updateBucket s2.tc_stats round_tc_bucket (fun b => { b with n_zero := b.n_zero + 1 }) }
        let (_, s4) ← draw_card req s3
        let (_, s5) ← draw_card req s4
        return { s5 with last_round_played := false }
      else playRound req fuel tcb tcd round_tc_bucket s2

/-- `n` iterations of the round loop, stopping once `rounds_played`
reaches the target.  A cancelled run is a run with a smaller `n`: the
engine's cancellation poll just breaks out of the same loop. -/
def iterRounds (req : SimulationRequest) (fuel : ℕ) : ℕ → SimState → Except SimError SimState
  | 0, s => .ok s
  | n + 1, s =>
    if s.rounds_played < req.hands then
      match simRound req fuel s with
      | .error e => .error e
      | .ok s => iterRounds req fuel n s
    else .ok s

/-- Sum of `n_total` over all TC buckets. -/
def sumNTotal (stats : List (ℤ × BucketStat)) : ℚ := (stats.map (fun p => p.2.n_total)).sum

/-- Sum of `n_iba` over all TC buckets. -/
def sumNIba (stats : List (ℤ × BucketStat)) : ℚ := (stats.map (fun p => p.2.n_iba)).sum

/-- Sum of `n_zero` over all TC buckets. -/
def sumNZero (stats : List (ℤ × BucketStat)) : ℚ := (stats.map (fun p => p.2.n_zero)).sum

/-! ### Risk of ruin and the final summary -/

/-- `RoRResult` of `models.py` (real-valued fields). -/
structure RoRResult where
  simple_ror : ℝ
  adjusted_ror : ℝ
  trip_ror : Option ℝ
  trip_hours : Option ℝ
  required_bankroll_5pct : Option ℝ
  required_bankroll_1pct : Option ℝ
  n0_hands : ℝ

/-- `calculate_ror_detail`.  `math.erf` has no Mathlib counterpart, so the
trip-RoR branch takes it as a parameter; nothing proved below depends on
its values. -/
noncomputable def calculate_ror_detail (erf : ℝ → ℝ)
    (ev_per_hand variance_per_hand bankroll n0_hands : ℝ)
    (trip_hours : Option ℝ) (hands_per_hour : ℝ) : RoRResult :=
  let simple_ror : ℝ :=
    if ev_per_hand ≤ 0 then 1
    else
      let k := if variance_per_hand > 0 then 2 * ev_per_hand / variance_per_hand else 0
      Real.exp (-k * bankroll)
  let adjusted_ror := simple_ror
  let trip_ror_val : Option ℝ :=
    match trip_hours with
    | none => none
    | some h =>
      if h > 0 then
        let trip_hands := h * hands_per_hour
        let trip_ev := ev_per_hand * trip_hands
        let trip_stdev := Real.sqrt (variance_per_hand * trip_hands)
        if trip_stdev > 0 then
          let z := (-bankroll - trip_ev) / trip_stdev
          if z < -3 then some 0
          else if z > 3 then some 1
          else some (1 / 2 * (1 + erf (z / Real.sqrt 2)))
        else none
      else none
  let required : Option ℝ × Option ℝ :=
    if ev_per_hand > 0 ∧ variance_per_hand > 0 then
      let k := 2 * ev_per_hand / variance_per_hand
      (if k > 0 then some (-Real.log (5 / 100) / k) else none,
       if k > 0 then some (-Real.log (1 / 100) / k) else none)
    else (none, none)
  { simple_ror := simple_ror
    adjusted_ror := adjusted_ror
    trip_ror := trip_ror_val
    trip_hours := trip_hours
    required_bankroll_5pct := required.1
    required_bankroll_1pct := required.2
    n0_hands := n0_hands }

/-- `models.TcTableEntry`. -/
structure TcTableEntry where
  tc : ℤ
  n : ℤ
  n_iba : ℤ
  n_zero : ℤ
  freq : ℚ
  ev_pct : ℚ
  ev_se_pct : ℝ
  variance : ℚ

/-- `models.SimulationResult`.  The `rounds_played` and `ror_detail`
keyword arguments the engine passes are not fields of the pydantic model
and are silently dropped by it, so they do not appear here; `debug_hands`
is always absent because debug logging is not modelled. -/
structure SimulationResult where
  ev_per_100 : ℚ
  stdev_per_100 : ℝ
  variance_per_hand : ℚ
  di : ℝ
  score : ℚ
  n0_hands : ℚ
  ror : Option ℝ
  avg_initial_bet : Option ℚ
  avg_initial_bet_units : Option ℚ
  tc_histogram : List (ℤ × ℕ)
  tc_histogram_est : List (ℤ × ℕ)
  tc_table : List TcTableEntry
  meta : List (String × String)
  hours_played : Option ℚ

/-- Python `int()` on a float: truncation toward zero. -/
def pyInt (q : ℚ) : ℤ := if q < 0 then -⌊-q⌋ else ⌊q⌋

/-- Stable insertion by ascending bucket key. -/
def insertStat (x : ℤ × BucketStat) : List (ℤ × BucketStat) → List (ℤ × BucketStat)
  | [] => [x]
  | y :: ys => if x.1 < y.1 then x :: y :: ys else y :: insertStat x ys

/-- `sorted(tc_stats.items())` by bucket key. -/
def sortStats : List (ℤ × BucketStat) → List (ℤ × BucketStat)
  | [] => []
  | x :: xs => insertStat x (sortStats xs)

/-- One entry of the final TC table; `none` when the bucket is skipped
(`n_total ≤ 0`). -/
noncomputable def tcTableEntryOf (total_obs : ℤ) (p : ℤ × BucketStat) : Option TcTableEntry :=
  let n_total := pyInt p.2.n_total
  let n_iba := pyInt p.2.n_iba
  let n_zero := pyInt p.2.n_zero
  if n_total ≤ 0 then none
  else
    let freq : ℚ := if total_obs > 0 then (n_total : ℚ) / (total_obs : ℚ) else 0
    let mean_x : ℚ := if n_iba > 0 then p.2.mean else 0
    let var_x : ℚ := if n_iba > 0 then max (p.2.m2 / (n_iba : ℚ)) 0 else 0
    let se_x : ℝ := if n_iba > 0 then Real.sqrt ((var_x : ℝ) / (n_iba : ℝ)) else 0
    some { tc := p.1, n := n_total, n_iba := n_iba, n_zero := n_zero, freq := freq, ev_pct := mean_x * 100, ev_se_pct := se_x * 100, variance := var_x }

/-- The `tc_table` construction of `run_simulation`'s epilogue. -/
noncomputable def buildTcTable (stats : List (ℤ × BucketStat)) : List TcTableEntry :=
  let total_obs := (stats.map (fun p => pyInt p.2.n_total)).sum
  (sortStats stats).filterMap (tcTableEntryOf total_obs)

/-- The post-loop summary of `run_simulation`: the zero result when no
rounds were played, else the moments, figures of merit, inline simple
RoR, and the TC table.  `avg_initial_bet / unit_size` raises
`ZeroDivisionError` in Python when `unit_size = 0`, modelled as a crash.
The `ror_detail = calculate_ror_detail(...)` value the source computes is
dropped by the response model (no such field) and so is not recorded. -/
noncomputable def finalize (req : SimulationRequest) (was_cancelled : Bool) (s : SimState) :
    Except SimError SimulationResult :=
  if s.rounds_played = 0 then
    .ok { ev_per_100 := 0, stdev_per_100 := 0, variance_per_hand := 0, di := 0, score := 0, n0_hands := 0, ror := none, avg_initial_bet := none, avg_initial_bet_units := none, tc_histogram := [], tc_histogram_est := [], tc_table := [], meta := [("note", "no hands played")], hours_played := none }
  else if req.unit_size = 0 then .error .crash
  else
    let mean := s.total_profit / (s.rounds_played : ℚ)
    let variance := max (s.total_sq_profit / (s.rounds_played : ℚ) - mean * mean) 0
    let stdev : ℝ := Real.sqrt (variance : ℝ)
    let ev_per_100 := mean * 100
    let stdev_per_100 := stdev * 10
    let di : ℝ := if stdev > 0 then (mean : ℝ) / stdev else 0
    let score : ℚ := if variance > 0 then 100 * (mean * mean) / variance else 0
    let n0 : ℚ := if mean ≠ 0 then variance / (mean * mean) else 0
    let ror : Option ℝ :=
      match req.bankroll with
      | none => none
      | some bankroll =>
        if bankroll = 0 then none
        else if mean ≤ 0 then some 1
        else
          let k : ℝ := if variance > 0 then 2 * (mean : ℝ) / (variance : ℝ) else 0
          some (Real.exp (-k * (bankroll : ℝ)))
    let meta := [("rounds_played", toString s.rounds_played),
      ("note", if was_cancelled then "cancelled" else "single-process sim"),
      ("was_cancelled", if was_cancelled then "true" else "false")]
    let hours_played : Option ℚ :=
      if req.hands_per_hour > 0 then some ((s.rounds_played : ℚ) / req.hands_per_hour) else none
    let avg_initial_bet : ℚ := s.total_initial_bet / (s.rounds_played : ℚ)
    .ok
      { ev_per_100 := ev_per_100
        stdev_per_100 := stdev_per_100
        variance_per_hand := variance
        di := di
        score := score
        n0_hands := n0
        ror := ror
        avg_initial_bet := some avg_initial_bet
        avg_initial_bet_units := some (avg_initial_bet / req.unit_size)
        tc_histogram := s.tc_histogram
        tc_histogram_est := s.tc_histogram_est
        tc_table := buildTcTable s.tc_stats
        meta := meta
        hours_played := hours_played }

/-- `run_simulation`: the round loop, then the summary.  Progress and
debug callbacks are omitted (logging only); a cancelled run corresponds
to a smaller iteration budget `n`.  Iteration or loop-fuel exhaustion is
`SimError.fuel`; a Python exception is `SimError.crash`. -/
noncomputable def run_simulation (req : SimulationRequest) (fuel n : ℕ) :
    Except SimError SimulationResult :=
  match iterRounds req fuel n (initState req) with
  | .error e => .error e
  | .ok s =>
    if s.rounds_played < req.hands then .error .fuel
    else finalize req false s

/-! ### C8: risk-of-ruin formulas -/

/-- C8: simple risk of ruin is 1 when the per-hand mean is nonpositive;
otherwise it is `exp(−k·bankroll)` with `k = 2·mean/variance`; and for
positive mean and variance the required bankrolls for 5% and 1% target
ruin are `−ln(0.05)/k` and `−ln(0.01)/k`. -/
theorem calculate_ror_detail_spec (erf : ℝ → ℝ)
    (mean variance bankroll n0 : ℝ) (trip_hours : Option ℝ) (hph : ℝ) :
    (mean ≤ 0 →
      (calculate_ror_detail erf mean variance bankroll n0 trip_hours hph).simple_ror = 1) ∧
    (0 < mean → 0 < variance →
      (calculate_ror_detail erf mean variance bankroll n0 trip_hours hph).simple_ror =
        Real.exp (-(2 * mean / variance) * bankroll) ∧
      (calculate_ror_detail erf mean variance bankroll n0 trip_hours hph).required_bankroll_5pct =
        some (-Real.log (5 / 100) / (2 * mean / variance)) ∧
      (calculate_ror_detail erf mean variance bankroll n0 trip_hours hph).required_bankroll_1pct =
        some (-Real.log (1 / 100) / (2 * mean / variance))) := by
  constructor
  · intro h
    simp only [calculate_ror_detail, if_pos h]
  · intro h1 h2
    have hne : ¬ mean ≤ 0 := not_le.mpr h1
    have hk : (0 : ℝ) < 2 * mean / variance := by positivity
    refine ⟨?_, ?_, ?_⟩
    · simp only [calculate_ror_detail, if_neg hne, if_pos h2]
    · simp only [calculate_ror_detail, if_pos (And.intro h1 h2), if_pos hk]
    · simp only [calculate_ror_detail, if_pos (And.intro h1 h2), if_pos hk]

/-- C8 witness: the formulas at mean 1, variance 2, bankroll 5. -/
theorem calculate_ror_detail_spec_witness :
    (0 : ℝ) < 1 ∧ (0 : ℝ) < 2 ∧
    (calculate_ror_detail (fun _ => 0) 1 2 5 0 none 100).simple_ror =
      Real.exp (-(2 * 1 / 2) * 5) ∧
    (calculate_ror_detail (fun _ => 0) 1 2 5 0 none 100).required_bankroll_5pct =
      some (-Real.log (5 / 100) / (2 * 1 / 2)) :=
  ⟨one_pos, two_pos,
   ((calculate_ror_detail_spec (fun _ => 0) 1 2 5 0 none 100).2 one_pos two_pos).1,
   ((calculate_ror_detail_spec (fun _ => 0) 1 2 5 0 none 100).2 one_pos two_pos).2.1⟩

/-! ### Engine invariants -/

/-- The shuffle oracle's contract (`rng.shuffle` permutes its input)
together with the request-validation bounds the invariants rely on. -/
structure ReqOk (req : SimulationRequest) : Prop where
  shuffle_perm : ∀ k l, (req.shuffle k l).Perm l
  decks_pos : 1 ≤ req.rules.decks
  pen_le : req.rules.penetration ≤ 99 / 100

/-- Shoe geometry of every reachable state: a full `52·decks`-card shoe
with the cut card as set by the most recent (re)shuffle. -/
def ShoeInv (req : SimulationRequest) (s : SimState) : Prop :=
  s.shoe.length = 52 * req.rules.decks ∧
  s.cut_card = cutCardOf s.shoe.length req.rules.penetration

lemma deckBlock_length : deckBlock.length = 52 := by decide

lemma deckBlock_count (r : Card) : deckBlock.count r = 4 := by
  cases r <;> decide

lemma unshuffledShoe_length (d : ℕ) : (unshuffledShoe d).length = 52 * d := by
  induction d with
  | zero => rfl
  | succ n ih =>
    simp only [unshuffledShoe, List.length_append, ih, deckBlock_length]
    ring

lemma unshuffledShoe_count (d : ℕ) (r : Card) : (unshuffledShoe d).count r = 4 * d := by
  induction d with
  | zero => rfl
  | succ n ih =>
    simp only [unshuffledShoe, List.count_append, ih, deckBlock_count]
    ring

lemma build_shoe_perm (req : SimulationRequest) (hreq : ReqOk req) (idx : ℕ) :
    (build_shoe req idx).Perm (unshuffledShoe req.rules.decks) :=
  hreq.shuffle_perm idx _

lemma build_shoe_length (req : SimulationRequest) (hreq : ReqOk req) (idx : ℕ) :
    (build_shoe req idx).length = 52 * req.rules.decks := by
  rw [(build_shoe_perm req hreq idx).length_eq, unshuffledShoe_length]

lemma build_shoe_count (req : SimulationRequest) (hreq : ReqOk req) (idx : ℕ) (r : Card) :
    (build_shoe req idx).count r = 4 * req.rules.decks := by
  rw [(build_shoe_perm req hreq idx).count_eq, unshuffledShoe_count]

lemma initState_inv (req : SimulationRequest) (hreq : ReqOk req) :
    ShoeInv req (initState req) :=
  ⟨build_shoe_length req hreq 0, rfl⟩

lemma reshuffleState_inv (req : SimulationRequest) (hreq : ReqOk req) (s : SimState) :
    ShoeInv req (reshuffleState req s) :=
  ⟨build_shoe_length req hreq s.shuffle_idx, rfl⟩

lemma cutCardOf_lt (len : ℕ) (pen : ℚ) (hlen : 0 < len) (hpen : pen ≤ 99 / 100) :
    cutCardOf len pen < len := by
  have hlq : (0 : ℚ) < (len : ℚ) := by exact_mod_cast hlen
  have hx : (len : ℚ) * pen < ((len : ℤ) : ℚ) := by
    push_cast
    nlinarith
  have hfl : ⌊(len : ℚ) * pen⌋ < (len : ℤ) := by
    rw [Int.floor_lt]
    exact hx
  unfold cutCardOf
  omega

/-- `draw_card` on a state with the shoe invariant: it succeeds, preserves
the invariant, and leaves the statistics untouched. -/
lemma draw_card_ok (req : SimulationRequest) (hreq : ReqOk req) (s : SimState)
    (hinv : ShoeInv req s) :
    ∃ c s', draw_card req s = .ok (c, s') ∧ ShoeInv req s' ∧
      s'.tc_stats = s.tc_stats ∧ s'.rounds_played = s.rounds_played := by
  have hlen52 : 0 < 52 * req.rules.decks := by
    have := hreq.decks_pos
    omega
  set t := if s.pointer ≥ s.cut_card then reshuffleState req s else s with ht
  have htinv : ShoeInv req t ∧ t.tc_stats = s.tc_stats ∧ t.rounds_played = s.rounds_played := by
    rw [ht]
    split
    · exact ⟨reshuffleState_inv req hreq s, rfl, rfl⟩
    · exact ⟨hinv, rfl, rfl⟩
  have hptr : t.pointer < t.shoe.length := by
    rw [ht]
    split
    · show (reshuffleState req s).pointer < _
      have h0 : (reshuffleState req s).pointer = 0 := rfl
      rw [h0, (reshuffleState_inv req hreq s).1]
      exact hlen52
    · rename_i h
      push_neg at h
      calc s.pointer < s.cut_card := h
        _ < s.shoe.length := by
          rw [hinv.2]
          exact cutCardOf_lt _ _ (by rw [hinv.1]; exact hlen52) hreq.pen_le
  have hdc : draw_card req s = .ok (t.shoe.get ⟨t.pointer, hptr⟩,
      { t with pointer := t.pointer + 1, running_count := t.running_count + req.counting_system.tags (t.shoe.get ⟨t.pointer, hptr⟩) }) := by
    unfold draw_card
    rw [← ht]
    dsimp only
    rw [List.get?_eq_get hptr]
  refine ⟨_, _, hdc, ⟨htinv.1.1, htinv.1.2⟩, htinv.2.1, htinv.2.2⟩

/-- Sum over an assoc list of a bucket projection after `updateBucket`:
the projection changes by a constant `d` at the touched key. -/
lemma updateBucket_sum (p : BucketStat → ℚ) (f : BucketStat → BucketStat) (d : ℚ)
    (hf : ∀ b, p (f b) = p b + d) (h0 : p BucketStat.init = 0) :
    ∀ (stats : List (ℤ × BucketStat)) (k : ℤ),
      ((updateBucket stats k f).map (fun q => p q.2)).sum =
        (stats.map (fun q => p q.2)).sum + d := by
  intro stats
  induction stats with
  | nil =>
    intro k
    simp [updateBucket, hf, h0]
  | cons q rest ih =>
    intro k
    rcases q with ⟨k', b⟩
    by_cases hk : k' = k
    · simp only [updateBucket, if_pos hk, List.map_cons, List.sum_cons, hf]
      ring
    · simp only [updateBucket, if_neg hk, List.map_cons, List.sum_cons, ih k]
      ring

lemma sumNTotal_bump (stats : List (ℤ × BucketStat)) (k : ℤ) :
    sumNTotal (updateBucket stats k (fun b => { b with n_total := b.n_total + 1 })) =
      sumNTotal stats + 1 ∧
    sumNZero (updateBucket stats k (fun b => { b with n_total := b.n_total + 1 })) =
      sumNZero stats ∧
    sumNIba (updateBucket stats k (fun b => { b with n_total := b.n_total + 1 })) =
      sumNIba stats := by
  refine ⟨updateBucket_sum _ _ 1 (fun b => rfl) rfl stats k, ?_, ?_⟩
  · have := updateBucket_sum BucketStat.n_zero
      (fun b => { b with n_total := b.n_total + 1 }) 0 (fun b => by simp) rfl stats k
    simpa [sumNZero] using this
  · have := updateBucket_sum BucketStat.n_iba
      (fun b => { b with n_total := b.n_total + 1 }) 0 (fun b => by simp) rfl stats k
    simpa [sumNIba] using this

lemma sumNZero_bump (stats : List (ℤ × BucketStat)) (k : ℤ) :
    sumNTotal (updateBucket stats k (fun b => { b with n_zero := b.n_zero + 1 })) =
      sumNTotal stats ∧
    sumNZero (updateBucket stats k (fun b => { b with n_zero := b.n_zero + 1 })) =
      sumNZero stats + 1 ∧
    sumNIba (updateBucket stats k (fun b => { b with n_zero := b.n_zero + 1 })) =
      sumNIba stats := by
  refine ⟨?_, updateBucket_sum _ _ 1 (fun b => rfl) rfl stats k, ?_⟩
  · have := updateBucket_sum BucketStat.n_total
      (fun b => { b with n_zero := b.n_zero + 1 }) 0 (fun b => by simp) rfl stats k
    simpa [sumNTotal] using this
  · have := updateBucket_sum BucketStat.n_iba
      (fun b => { b with n_zero := b.n_zero + 1 }) 0 (fun b => by simp) rfl stats k
    simpa [sumNIba] using this

lemma update_iba_stats_sums (stats : List (ℤ × BucketStat)) (k : ℤ) (profit bet : ℚ) :
    sumNTotal (update_iba_stats stats k profit bet) = sumNTotal stats ∧
    sumNZero (update_iba_stats stats k profit bet) = sumNZero stats ∧
    sumNIba (update_iba_stats stats k profit bet) =
      sumNIba stats + (if bet ≤ 0 then 0 else 1) := by
  unfold update_iba_stats
  by_cases hb : bet ≤ 0
  · simp [hb]
  · rw [if_neg hb, if_neg hb]
    refine ⟨?_, ?_, ?_⟩
    · have := updateBucket_sum BucketStat.n_total
        (fun st => welford_update st (profit / bet)) 0 (fun b => by simp [welford_update]) rfl
        stats k
      simpa [sumNTotal] using this
    · have := updateBucket_sum BucketStat.n_zero
        (fun st => welford_update st (profit / bet)) 0 (fun b => by simp [welford_update]) rfl
        stats k
      simpa [sumNZero] using this
    · have := updateBucket_sum BucketStat.n_iba
        (fun st => welford_update st (profit / bet)) 1 (fun b => rfl) rfl stats k
      simpa [sumNIba] using this

lemma insertStep_mem (x : BetRampEntry) (l : List BetRampEntry) (y : BetRampEntry)
    (h : y ∈ insertStep x l) : y = x ∨ y ∈ l := by
  induction l with
  | nil => simpa [insertStep] using h
  | cons z zs ih =>
    unfold insertStep at h
    split at h
    · rcases List.mem_cons.mp h with h1 | h1
      · exact Or.inl h1
      · exact Or.inr h1
    · rcases List.mem_cons.mp h with h1 | h1
      · exact Or.inr (List.mem_cons.mpr (Or.inl h1))
      · rcases ih h1 with h2 | h2
        · exact Or.inl h2
        · exact Or.inr (List.mem_cons.mpr (Or.inr h2))

lemma sortSteps_mem (l : List BetRampEntry) (y : BetRampEntry)
    (h : y ∈ sortSteps l) : y ∈ l := by
  induction l with
  | nil => simpa [sortSteps] using h
  | cons x xs ih =>
    unfold sortSteps at h
    rcases insertStep_mem x (sortSteps xs) y h with h1 | h1
    · exact List.mem_cons.mpr (Or.inl h1)
    · exact List.mem_cons.mpr (Or.inr (ih h1))

lemma betWalk_mem (fl : ℤ) :
    ∀ (l : List BetRampEntry) (acc : Option BetRampEntry) (e : BetRampEntry),
      betWalk fl l acc = some e → e ∈ l ∨ acc = some e := by
  intro l
  induction l with
  | nil =>
    intro acc e h
    exact Or.inr h
  | cons x xs ih =>
    intro acc e h
    unfold betWalk at h
    split at h
    · rcases ih (some x) e h with h1 | h1
      · exact Or.inl (List.mem_cons.mpr (Or.inr h1))
      · exact Or.inl (List.mem_cons.mpr (Or.inl (by injection h1 with h2; exact h2.symm)))
    · exact Or.inr h

/-- `choose_bet` on a nonempty ramp: it succeeds with the stake of some
ramp entry. -/
lemma choose_bet_ok (tc : ℚ) (ramp : List BetRampEntry) (usz : ℚ) (hne : ramp ≠ []) :
    ∃ e ∈ ramp, choose_bet tc ramp usz = .ok (e.units * usz) := by
  match ramp, hne with
  | x :: xs, _ =>
    rcases hw : betWalk ⌊tc⌋ (x :: xs) none with _ | e
    · refine ⟨x, List.mem_cons.mpr (Or.inl rfl), ?_⟩
      unfold choose_bet
      dsimp only
      rw [hw]
    · rcases betWalk_mem ⌊tc⌋ (x :: xs) none e hw with h1 | h1
      · refine ⟨e, h1, ?_⟩
        unfold choose_bet
        dsimp only
        rw [hw]
      · cases h1

lemma exceptBind_ok {α β : Type} (a : α) (f : α → Except SimError β) :
    ((Except.ok a : Except SimError α) >>= f) = f a := rfl

lemma exceptBind_err {α β : Type} (e : SimError) (f : α → Except SimError β) :
    ((Except.error e : Except SimError α) >>= f) = .error e := rfl

/-- `handDispatch` never fails on a well-formed shoe, and leaves the
statistics untouched. -/
lemma handDispatch_ok (req : SimulationRequest) (hreq : ReqOk req) (dealer0 : Card)
    (tc : ℚ) (hand : HandState) (s : SimState) (hinv : ShoeInv req s) :
    ∃ r s', handDispatch req dealer0 tc hand s = .ok (r, s') ∧ ShoeInv req s' ∧
      s'.tc_stats = s.tc_stats ∧ s'.rounds_played = s.rounds_played := by
  unfold handDispatch
  dsimp only
  split_ifs with h1 h2 h3 h4
  · exact ⟨_, s, rfl, hinv, rfl, rfl⟩
  · exact ⟨_, s, rfl, hinv, rfl, rfl⟩
  · obtain ⟨c, s', hdc, hinv', hst, hr⟩ := draw_card_ok req hreq s hinv
    rw [hdc]
    exact ⟨_, s', rfl, hinv', hst, hr⟩
  · exact ⟨_, s, rfl, hinv, rfl, rfl⟩
  · obtain ⟨c, s', hdc, hinv', hst, hr⟩ := draw_card_ok req hreq s hinv
    rw [hdc]
    dsimp only
    by_cases h5 : (hand_value (hand.cards ++ [c])).1 ≥ 21
    · exact ⟨_, s', by rw [if_pos h5], hinv', hst, hr⟩
    · exact ⟨_, s', by rw [if_neg h5], hinv', hst, hr⟩

/-- `handStep` never fails on a well-formed shoe, and leaves the
statistics untouched. -/
lemma handStep_ok (req : SimulationRequest) (hreq : ReqOk req) (dealer0 : Card)
    (hand : HandState) (s : SimState) (hinv : ShoeInv req s) :
    ∃ r s', handStep req dealer0 hand s = .ok (r, s') ∧ ShoeInv req s' ∧
      s'.tc_stats = s.tc_stats ∧ s'.rounds_played = s.rounds_played := by
  unfold handStep
  dsimp only
  generalize (match hand.cards with
    | [c0, c1] =>
      if c0 = c1 ∧ hand.split_depth < req.rules.max_splits ∧
          (c0 ≠ Card.cA ∨ req.rules.resplit_aces ∨ hand.split_depth = 0)
      then some (c0, c1) else none
    | _ => none) = sp
  rcases sp with _ | ⟨c0, c1⟩
  · exact handDispatch_ok req hreq dealer0 _ hand s hinv
  · dsimp only
    by_cases hP : pair_strategy_action c0 dealer0 req.rules = "P"
    · rw [if_pos hP]
      obtain ⟨cL, s1, hd1, hinv1, hst1, hr1⟩ := draw_card_ok req hreq s hinv
      rw [hd1]
      dsimp only
      obtain ⟨cR, s2, hd2, hinv2, hst2, hr2⟩ := draw_card_ok req hreq s1 hinv1
      rw [hd2]
      exact ⟨_, s2, rfl, hinv2, hst2.trans hst1, hr2.trans hr1⟩
    · rw [if_neg hP]
      exact handDispatch_ok req hreq dealer0 _ hand s hinv

/-- The player queue terminates without crash (or runs out of fuel),
preserving the invariant and the statistics. -/
lemma playQueue_ok (req : SimulationRequest) (hreq : ReqOk req) (dealer0 : Card) :
    ∀ (fuel : ℕ) (queue : List HandState) (fin : List FinishedHand) (s : SimState),
      ShoeInv req s →
      playQueue req dealer0 fuel queue fin s = .error .fuel ∨
      ∃ out s', playQueue req dealer0 fuel queue fin s = .ok (out, s') ∧ ShoeInv req s' ∧
        s'.tc_stats = s.tc_stats ∧ s'.rounds_played = s.rounds_played := by
  intro fuel
  induction fuel with
  | zero =>
    intro queue fin s _
    exact Or.inl rfl
  | succ n ih =>
    intro queue fin s hinv
    match queue with
    | [] => exact Or.inr ⟨fin, s, rfl, hinv, rfl, rfl⟩
    | hand :: rest =>
      obtain ⟨r, s1, hstep, hinv1, hst1, hr1⟩ := handStep_ok req hreq dealer0 hand s hinv
      cases r with
      | split l r' =>
        rcases ih (l :: r' :: rest) fin s1 hinv1 with hfu | ⟨out, s2, hok, hinv2, hst2, hr2⟩
        · left
          simp only [playQueue, hstep]
          exact hfu
        · right
          exact ⟨out, s2, by simp only [playQueue, hstep]; exact hok, hinv2,
            hst2.trans hst1, hr2.trans hr1⟩
      | finish fh =>
        rcases ih rest (fin ++ [fh]) s1 hinv1 with hfu | ⟨out, s2, hok, hinv2, hst2, hr2⟩
        · left
          simp only [playQueue, hstep]
          exact hfu
        · right
          exact ⟨out, s2, by simp only [playQueue, hstep]; exact hok, hinv2,
            hst2.trans hst1, hr2.trans hr1⟩
      | again h' =>
        rcases ih (h' :: rest) fin s1 hinv1 with hfu | ⟨out, s2, hok, hinv2, hst2, hr2⟩
        · left
          simp only [playQueue, hstep]
          exact hfu
        · right
          exact ⟨out, s2, by simp only [playQueue, hstep]; exact hok, hinv2,
            hst2.trans hst1, hr2.trans hr1⟩

/-- The dealer loop terminates without crash (or runs out of fuel),
preserving the invariant and the statistics. -/
lemma dealerPlay_ok (req : SimulationRequest) (hreq : ReqOk req) :
    ∀ (fuel : ℕ) (dealer : List Card) (s : SimState),
      ShoeInv req s →
      dealerPlay req fuel dealer s = .error .fuel ∨
      ∃ d' s', dealerPlay req fuel dealer s = .ok (d', s') ∧ ShoeInv req s' ∧
        s'.tc_stats = s.tc_stats ∧ s'.rounds_played = s.rounds_played := by
  intro fuel
  induction fuel with
  | zero =>
    intro dealer s _
    exact Or.inl rfl
  | succ n ih =>
    intro dealer s hinv
    by_cases hc : (hand_value dealer).1 < 17 ∨
        ((hand_value dealer).1 = 17 ∧ (hand_value dealer).2 ∧ req.rules.hit_soft_17)
    · obtain ⟨c, s1, hdc, hinv1, hst1, hr1⟩ := draw_card_ok req hreq s hinv
      rcases ih (dealer ++ [c]) s1 hinv1 with hfu | ⟨d', s2, hok, hinv2, hst2, hr2⟩
      · left
        simp only [dealerPlay, if_pos hc, hdc]
        exact hfu
      · right
        exact ⟨d', s2, by simp only [dealerPlay, if_pos hc, hdc]; exact hok, hinv2,
          hst2.trans hst1, hr2.trans hr1⟩
    · right
      exact ⟨dealer, s, by simp only [dealerPlay, if_neg hc], hinv, rfl, rfl⟩

lemma sumNTotal_update_iba (stats : List (ℤ × BucketStat)) (k : ℤ) (profit bet : ℚ) :
    sumNTotal (update_iba_stats stats k profit bet) = sumNTotal stats :=
  (update_iba_stats_sums stats k profit bet).1

lemma sumNZero_update_iba (stats : List (ℤ × BucketStat)) (k : ℤ) (profit bet : ℚ) :
    sumNZero (update_iba_stats stats k profit bet) = sumNZero stats :=
  (update_iba_stats_sums stats k profit bet).2.1

lemma sumNIba_update_iba (stats : List (ℤ × BucketStat)) (k : ℤ) (profit bet : ℚ) :
    sumNIba (update_iba_stats stats k profit bet) =
      sumNIba stats + (if bet ≤ 0 then 0 else 1) :=
  (update_iba_stats_sums stats k profit bet).2.2

/-- `playRound` either runs out of fuel (or crashes, which is only
possible on an empty ramp), or succeeds: one more round played,
`n_total`/`n_zero` sums unchanged, and `n_iba` bumped exactly when the
chosen stake is positive. -/
lemma playRound_ok (req : SimulationRequest) (hreq : ReqOk req) (fuel : ℕ)
    (tcb tcd : ℚ) (bucket : ℤ) (s : SimState) (hinv : ShoeInv req s) :
    (∃ e, playRound req fuel tcb tcd bucket s = .error e ∧
      (ramp_steps req ≠ [] → e = SimError.fuel)) ∨
    ∃ s', playRound req fuel tcb tcd bucket s = .ok s' ∧ ShoeInv req s' ∧
      sumNTotal s'.tc_stats = sumNTotal s.tc_stats ∧
      sumNZero s'.tc_stats = sumNZero s.tc_stats ∧
      s'.rounds_played = s.rounds_played + 1 ∧
      ∃ bet : ℚ, (∃ e ∈ ramp_steps req, bet = e.units * req.unit_size) ∧
        sumNIba s'.tc_stats = sumNIba s.tc_stats + (if bet ≤ 0 then 0 else 1) := by
  by_cases hramp : ramp_steps req = []
  · left
    have hcb : choose_bet tcb (ramp_steps req) req.unit_size = .error .crash := by
      rw [hramp]
      rfl
    refine ⟨.crash, ?_, fun h => absurd hramp h⟩
    unfold playRound
    rw [hcb, exceptBind_err]
  · obtain ⟨e, hmem, hcb⟩ := choose_bet_ok tcb (ramp_steps req) req.unit_size hramp
    unfold playRound
    rw [hcb, exceptBind_ok]
    dsimp only
    obtain ⟨c1, s1, hd1, hi1, ht1, hr1⟩ := draw_card_ok req hreq
      { s with total_initial_bet := s.total_initial_bet + e.units * req.unit_size } hinv
    rw [hd1, exceptBind_ok]
    dsimp only
    obtain ⟨c2, s2, hd2, hi2, ht2, hr2⟩ := draw_card_ok req hreq s1 hi1
    rw [hd2, exceptBind_ok]
    dsimp only
    obtain ⟨c3, s3, hd3, hi3, ht3, hr3⟩ := draw_card_ok req hreq s2 hi2
    rw [hd3, exceptBind_ok]
    dsimp only
    obtain ⟨c4, s4, hd4, hi4, ht4, hr4⟩ := draw_card_ok req hreq s3 hi3
    rw [hd4, exceptBind_ok]
    dsimp only
    have htchain : s4.tc_stats = s.tc_stats := by
      rw [ht4, ht3, ht2, ht1]
    have hrchain : s4.rounds_played = s.rounds_played := by
      rw [hr4, hr3, hr2, hr1]
    by_cases hbj : is_blackjack [c3, c4] = true ∨ is_blackjack [c1, c2] = true
    · rw [if_pos hbj]
      refine Or.inr ⟨_, rfl, ⟨hi4.1, hi4.2⟩, ?_, ?_, ?_,
        ⟨e.units * req.unit_size, ⟨e, hmem, rfl⟩, ?_⟩⟩
      · simp only [sumNTotal_update_iba]
        rw [htchain]
      · simp only [sumNZero_update_iba]
        rw [htchain]
      · show s4.rounds_played + 1 = s.rounds_played + 1
        rw [hrchain]
      · simp only [sumNIba_update_iba]
        rw [htchain]
    · rw [if_neg hbj]
      rcases playQueue_ok req hreq c3 fuel
          [{ cards := [c1, c2], bet := e.units * req.unit_size, split_depth := 0, is_split_aces := false, can_double := req.rules.double_any_two }]
          [] s4 hi4 with hfu | ⟨out, s5, hq, hi5, ht5, hr5⟩
      · left
        refine ⟨.fuel, ?_, fun _ => rfl⟩
        rw [hfu, exceptBind_err]
      · rw [hq, exceptBind_ok]
        dsimp only
        rcases dealerPlay_ok req hreq fuel [c3, c4] s5 hi5 with hfu | ⟨d', s6, hdp, hi6, ht6, hr6⟩
        · left
          refine ⟨.fuel, ?_, fun _ => rfl⟩
          rw [hfu, exceptBind_err]
        · rw [hdp, exceptBind_ok]
          dsimp only
          have htchain6 : s6.tc_stats = s.tc_stats := by
            rw [ht6, ht5, htchain]
          have hrchain6 : s6.rounds_played = s.rounds_played := by
            rw [hr6, hr5, hrchain]
          refine Or.inr ⟨_, rfl, ⟨hi6.1, hi6.2⟩, ?_, ?_, ?_,
            ⟨e.units * req.unit_size, ⟨e, hmem, rfl⟩, ?_⟩⟩
          · simp only [sumNTotal_update_iba]
            rw [htchain6]
          · simp only [sumNZero_update_iba]
            rw [htchain6]
          · show s6.rounds_played + 1 = s.rounds_played + 1
            rw [hrchain6]
          · simp only [sumNIba_update_iba]
            rw [htchain6]

lemma preRound_tc_stats (req : SimulationRequest) (s : SimState) :
    (preRound req s).tc_stats = updateBucket s.tc_stats ⌊tc_for_bet req s⌋
      (fun b => { b with n_total := b.n_total + 1 }) := rfl

lemma preRound_inv (req : SimulationRequest) (s : SimState) (h : ShoeInv req s) :
    ShoeInv req (preRound req s) := h

lemma preRound_sums (req : SimulationRequest) (s : SimState) :
    sumNTotal (preRound req s).tc_stats = sumNTotal s.tc_stats + 1 ∧
    sumNZero (preRound req s).tc_stats = sumNZero s.tc_stats ∧
    sumNIba (preRound req s).tc_stats = sumNIba s.tc_stats := by
  rw [preRound_tc_stats]
  exact sumNTotal_bump s.tc_stats _

lemma wongUpdate_frame (req : SimulationRequest) (s : SimState) :
    (wongUpdate req s).tc_stats = s.tc_stats ∧
    (wongUpdate req s).rounds_played = s.rounds_played := by
  unfold wongUpdate
  split <;> exact ⟨rfl, rfl⟩

lemma wongUpdate_inv (req : SimulationRequest) (s : SimState) (h : ShoeInv req s) :
    ShoeInv req (wongUpdate req s) := by
  unfold wongUpdate
  split
  · exact h
  · exact h

/-- One round-loop iteration: fuel exhaustion (or a crash, possible only
on an empty ramp), or success with the statistics delta of either a
Wong-out skip or a played round. -/
lemma simRound_ok (req : SimulationRequest) (hreq : ReqOk req) (fuel : ℕ) (s : SimState)
    (hinv : ShoeInv req s) :
    (∃ e, simRound req fuel s = .error e ∧ (ramp_steps req ≠ [] → e = SimError.fuel)) ∨
    ∃ s', simRound req fuel s = .ok s' ∧ ShoeInv req s' ∧
      sumNTotal s'.tc_stats = sumNTotal s.tc_stats + 1 ∧
      ((sumNZero s'.tc_stats = sumNZero s.tc_stats + 1 ∧
        sumNIba s'.tc_stats = sumNIba s.tc_stats ∧
        s'.rounds_played = s.rounds_played) ∨
       (sumNZero s'.tc_stats = sumNZero s.tc_stats ∧
        s'.rounds_played = s.rounds_played + 1 ∧
        ∃ bet : ℚ, (∃ e ∈ ramp_steps req, bet = e.units * req.unit_size) ∧
          sumNIba s'.tc_stats = sumNIba s.tc_stats + (if bet ≤ 0 then 0 else 1))) := by
  obtain ⟨hpT, hpZ, hpI⟩ := preRound_sums req s
  have hpinv := preRound_inv req s hinv
  have hpR : (preRound req s).rounds_played = s.rounds_played := rfl
  unfold simRound
  dsimp only
  rcases hwob : req.bet_ramp.wong_out_below with _ | wob
  · rcases playRound_ok req hreq fuel (tc_for_bet req s) (tc_for_dev req s)
        ⌊tc_for_bet req s⌋ (preRound req s) hpinv with ⟨e, herr, himp⟩ |
        ⟨s', hok, hinv', hT, hZ, hR, bet, hbm, hbi⟩
    · exact Or.inl ⟨e, herr, himp⟩
    · refine Or.inr ⟨s', hok, hinv', ?_, Or.inr ⟨?_, ?_, bet, hbm, ?_⟩⟩
      · rw [hT, hpT]
      · rw [hZ, hpZ]
      · rw [hR, hpR]
      · rw [hbi, hpI]
  · dsimp only
    by_cases hge : ⌊tc_for_bet req s⌋ ≥ wob
    · rw [if_pos hge]
      rcases playRound_ok req hreq fuel (tc_for_bet req s) (tc_for_dev req s)
          ⌊tc_for_bet req s⌋ { preRound req s with is_wonged_out := false } hpinv with
          ⟨e, herr, himp⟩ | ⟨s', hok, hinv', hT, hZ, hR, bet, hbm, hbi⟩
      · exact Or.inl ⟨e, herr, himp⟩
      · refine Or.inr ⟨s', hok, hinv', ?_, Or.inr ⟨?_, ?_, bet, hbm, ?_⟩⟩
        · exact hT.trans hpT
        · exact hZ.trans hpZ
        · exact hR.trans (congrArg (· + 1) hpR)
        · exact hbi.trans (congrArg (· + _) hpI)
    · rw [if_neg hge]
      obtain ⟨hwT, hwR⟩ := wongUpdate_frame req (preRound req s)
      have hwinv := wongUpdate_inv req (preRound req s) hpinv
      by_cases hw : (wongUpdate req (preRound req s)).is_wonged_out = true
      · rw [if_pos hw]
        have hs3inv : ShoeInv req { wongUpdate req (preRound req s) with
            tc_stats := updateBucket (wongUpdate req (preRound req s)).tc_stats
              ⌊tc_for_bet req s⌋ (fun b => { b with n_zero := b.n_zero + 1 }) } := hwinv
        obtain ⟨c1, s4, hd1, hi4, ht4, hr4⟩ := draw_card_ok req hreq _ hs3inv
        rw [hd1, exceptBind_ok]
        dsimp only
        obtain ⟨c2, s5, hd2, hi5, ht5, hr5⟩ := draw_card_ok req hreq s4 hi4
        rw [hd2, exceptBind_ok]
        dsimp only
        refine Or.inr ⟨_, rfl, ⟨hi5.1, hi5.2⟩, ?_, Or.inl ⟨?_, ?_, ?_⟩⟩
        · show sumNTotal s5.tc_stats = sumNTotal s.tc_stats + 1
          rw [ht5, ht4]
          have : sumNTotal (updateBucket (wongUpdate req (preRound req s)).tc_stats
              ⌊tc_for_bet req s⌋ (fun b => { b with n_zero := b.n_zero + 1 })) =
              sumNTotal (wongUpdate req (preRound req s)).tc_stats :=
            (sumNZero_bump _ _).1
          rw [this, hwT, hpT]
        · show sumNZero s5.tc_stats = sumNZero s.tc_stats + 1
          rw [ht5, ht4]
          have : sumNZero (updateBucket (wongUpdate req (preRound req s)).tc_stats
              ⌊tc_for_bet req s⌋ (fun b => { b with n_zero := b.n_zero + 1 })) =
              sumNZero (wongUpdate req (preRound req s)).tc_stats + 1 :=
            (sumNZero_bump _ _).2.1
          rw [this, hwT, hpZ]
        · show sumNIba s5.tc_stats = sumNIba s.tc_stats
          rw [ht5, ht4]
          have : sumNIba (updateBucket (wongUpdate req (preRound req s)).tc_stats
              ⌊tc_for_bet req s⌋ (fun b => { b with n_zero := b.n_zero + 1 })) =
              sumNIba (wongUpdate req (preRound req s)).tc_stats :=
            (sumNZero_bump _ _).2.2
          rw [this, hwT, hpI]
        · show s5.rounds_played = s.rounds_played
          rw [hr5, hr4]
          show (wongUpdate req (preRound req s)).rounds_played = s.rounds_played
          rw [hwR, hpR]
      · rw [if_neg hw]
        rcases playRound_ok req hreq fuel (tc_for_bet req s) (tc_for_dev req s)
            ⌊tc_for_bet req s⌋ (wongUpdate req (preRound req s)) hwinv with
            ⟨e, herr, himp⟩ | ⟨s', hok, hinv', hT, hZ, hR, bet, hbm, hbi⟩
        · exact Or.inl ⟨e, herr, himp⟩
        · refine Or.inr ⟨s', hok, hinv', ?_, Or.inr ⟨?_, ?_, bet, hbm, ?_⟩⟩
          · rw [hT, hwT, hpT]
          · rw [hZ, hwT, hpZ]
          · rw [hR, hwR, hpR]
          · rw [hbi, hwT, hpI]

/-- The Wong-out skip, taken whenever the floored bet true count is below
the threshold and the policy is "anytime": `n_total` and `n_zero` are
bumped, two cards are burned, and no round is recorded. -/
lemma simRound_skip (req : SimulationRequest) (hreq : ReqOk req) (fuel : ℕ) (s : SimState)
    (hinv : ShoeInv req s) (wob : ℤ)
    (hwob : req.bet_ramp.wong_out_below = some wob)
    (hpol : req.bet_ramp.wong_out_policy = "anytime")
    (htc : ⌊tc_for_bet req s⌋ < wob) :
    ∃ s', simRound req fuel s = .ok s' ∧
      sumNTotal s'.tc_stats = sumNTotal s.tc_stats + 1 ∧
      sumNZero s'.tc_stats = sumNZero s.tc_stats + 1 ∧
      sumNIba s'.tc_stats = sumNIba s.tc_stats ∧
      s'.rounds_played = s.rounds_played := by
  obtain ⟨hpT, hpZ, hpI⟩ := preRound_sums req s
  have hpinv := preRound_inv req s hinv
  have hpR : (preRound req s).rounds_played = s.rounds_played := rfl
  have hw : (wongUpdate req (preRound req s)).is_wonged_out = true := by
    unfold wongUpdate
    split
    · show wongPolicyEnter req (preRound req s) = true
      unfold wongPolicyEnter
      rw [hpol]
      simp
    · rename_i h
      simpa using h
  unfold simRound
  dsimp only
  rw [hwob]
  dsimp only
  rw [if_neg (not_le.mpr htc), if_pos hw]
  have hs3inv : ShoeInv req { wongUpdate req (preRound req s) with
      tc_stats := updateBucket (wongUpdate req (preRound req s)).tc_stats
        ⌊tc_for_bet req s⌋ (fun b => { b with n_zero := b.n_zero + 1 }) } :=
    wongUpdate_inv req (preRound req s) hpinv
  obtain ⟨c1, s4, hd1, hi4, ht4, hr4⟩ := draw_card_ok req hreq _ hs3inv
  rw [hd1, exceptBind_ok]
  dsimp only
  obtain ⟨c2, s5, hd2, hi5, ht5, hr5⟩ := draw_card_ok req hreq s4 hi4
  rw [hd2, exceptBind_ok]
  dsimp only
  obtain ⟨hwT, hwR⟩ := wongUpdate_frame req (preRound req s)
  refine ⟨_, rfl, ?_, ?_, ?_, ?_⟩
  · show sumNTotal s5.tc_stats = sumNTotal s.tc_stats + 1
    rw [ht5, ht4]
    have : sumNTotal (updateBucket (wongUpdate req (preRound req s)).tc_stats
        ⌊tc_for_bet req s⌋ (fun b => { b with n_zero := b.n_zero + 1 })) =
        sumNTotal (wongUpdate req (preRound req s)).tc_stats :=
      (sumNZero_bump _ _).1
    rw [this, hwT, hpT]
  · show sumNZero s5.tc_stats = sumNZero s.tc_stats + 1
    rw [ht5, ht4]
    have : sumNZero (updateBucket (wongUpdate req (preRound req s)).tc_stats
        ⌊tc_for_bet req s⌋ (fun b => { b with n_zero := b.n_zero + 1 })) =
        sumNZero (wongUpdate req (preRound req s)).tc_stats + 1 :=
      (sumNZero_bump _ _).2.1
    rw [this, hwT, hpZ]
  · show sumNIba s5.tc_stats = sumNIba s.tc_stats
    rw [ht5, ht4]
    have : sumNIba (updateBucket (wongUpdate req (preRound req s)).tc_stats
        ⌊tc_for_bet req s⌋ (fun b => { b with n_zero := b.n_zero + 1 })) =
        sumNIba (wongUpdate req (preRound req s)).tc_stats :=
      (sumNZero_bump _ _).2.2
    rw [this, hwT, hpI]
  · show s5.rounds_played = s.rounds_played
    rw [hr5, hr4]
    show (wongUpdate req (preRound req s)).rounds_played = s.rounds_played
    rw [hwR, hpR]

/-- `iterRounds` from a well-formed state: fuel exhaustion (or a crash,
possible only on an empty ramp), or success preserving the shoe invariant
and transporting the two bucket-sum invariants. -/
lemma iterRounds_ok (req : SimulationRequest) (hreq : ReqOk req) (fuel : ℕ) :
    ∀ (n : ℕ) (s : SimState), ShoeInv req s →
      (∃ e, iterRounds req fuel n s = .error e ∧ (ramp_steps req ≠ [] → e = SimError.fuel)) ∨
      ∃ s', iterRounds req fuel n s = .ok s' ∧ ShoeInv req s' ∧
        (sumNTotal s.tc_stats = (s.rounds_played : ℚ) + sumNZero s.tc_stats →
          sumNTotal s'.tc_stats = (s'.rounds_played : ℚ) + sumNZero s'.tc_stats) ∧
        ((∀ st ∈ req.bet_ramp.steps, 0 < st.units) → 0 < req.unit_size →
          sumNIba s.tc_stats = (s.rounds_played : ℚ) →
          sumNIba s'.tc_stats = (s'.rounds_played : ℚ)) := by
  intro n
  induction n with
  | zero =>
    intro s hinv
    exact Or.inr ⟨s, rfl, hinv, id, fun _ _ => id⟩
  | succ m ih =>
    intro s hinv
    by_cases hlt : s.rounds_played < req.hands
    · rcases simRound_ok req hreq fuel s hinv with ⟨e, herr, himp⟩ |
          ⟨s1, hok, hinv1, hT, hdelta⟩
      · left
        refine ⟨e, ?_, himp⟩
        simp only [iterRounds, if_pos hlt, herr]
      · rcases ih s1 hinv1 with ⟨e, herr, himp⟩ | ⟨s', hok', hinv', hP, hQ⟩
        · left
          refine ⟨e, ?_, himp⟩
          simp only [iterRounds, if_pos hlt, hok, herr]
        · right
          refine ⟨s', ?_, hinv', ?_, ?_⟩
          · simp only [iterRounds, if_pos hlt, hok, hok']
          · intro hbase
            apply hP
            rcases hdelta with ⟨hZ, hI, hR⟩ | ⟨hZ, hR, bet, _, hI⟩
            · rw [hT, hZ, hR]
              rw [hbase]
              ring
            · rw [hT, hZ, hR, hbase]
              push_cast
              ring
          · intro hu husz hbase
            apply hQ hu husz
            rcases hdelta with ⟨hZ, hI, hR⟩ | ⟨hZ, hR, bet, hbm, hI⟩
            · rw [hI, hR, hbase]
            · obtain ⟨e, hmem, hbet⟩ := hbm
              have hepos : 0 < e.units := hu e (sortSteps_mem _ _ hmem)
              have hbpos : 0 < bet := by
                rw [hbet]
                exact mul_pos hepos husz
              rw [hI, if_neg (not_le.mpr hbpos), hR, hbase]
              push_cast
              ring
    · right
      refine ⟨s, ?_, hinv, id, fun _ _ => id⟩
      simp only [iterRounds, if_neg hlt]

/-! ### Concrete requests used for counterexamples and witnesses -/

/-- The default Hi-Lo counting system of `models.py`. -/
def hiLoSystem : CountingSystem where
  name := "Hi-Lo"
  tags := hiLoTags
  true_count_divisor := "remaining_decks"

/-- A single-deck request with a one-step ramp and a Wong-out threshold
at true count 1 (policy "anytime"); the shuffle oracle is the identity
permutation. -/
def cexReq : SimulationRequest where
  rules := { defaultRules with decks := 1, penetration := 1 / 2 }
  counting_system := hiLoSystem
  deviations := []
  bet_ramp := { steps := [{ tc_floor := 0, units := 1 }], wong_out_below := some 1, wong_out_policy := "anytime" }
  bankroll := none
  unit_size := 10
  hands := 100
  deck_estimation_step := 0
  deck_estimation_rounding := "floor"
  use_estimated_tc_for_bet := false
  use_estimated_tc_for_deviations := false
  hands_per_hour := 100
  shuffle := fun _ l => l

lemma cexReqOk : ReqOk cexReq where
  shuffle_perm := fun _ l => List.Perm.refl l
  decks_pos := by decide
  pen_le := by norm_num [show cexReq.rules.penetration = 1 / 2 from rfl]

/-- The same request with an empty bet-ramp `steps` list (admitted by the
`BetRamp` validator, which only sorts and deduplicates) and no Wong-out;
every field is within the model's validation bounds (`hands ≥ 100`,
`1 ≤ decks ≤ 8`, `0.1 ≤ penetration ≤ 0.99`, `hands_per_hour > 0`). -/
def c9req : SimulationRequest where
  rules := { defaultRules with decks := 1, penetration := 1 / 2 }
  counting_system := hiLoSystem
  deviations := []
  bet_ramp := { steps := [], wong_out_below := none, wong_out_policy := "anytime" }
  bankroll := none
  unit_size := 10
  hands := 100
  deck_estimation_step := 0
  deck_estimation_rounding := "floor"
  use_estimated_tc_for_bet := false
  use_estimated_tc_for_deviations := false
  hands_per_hour := 100
  shuffle := fun _ l => l

/-- A surrender-disabled request holding one deviation: surrender soft 17
versus 7 at any true count at or above −10. -/
def c10req : SimulationRequest where
  rules := { defaultRules with decks := 1, penetration := 1 / 2, surrender := false }
  counting_system := hiLoSystem
  deviations := [{ hand_key := "17sv7", tc_floor := -10, action := "R" }]
  bet_ramp := { steps := [{ tc_floor := 0, units := 1 }], wong_out_below := none, wong_out_policy := "anytime" }
  bankroll := none
  unit_size := 10
  hands := 100
  deck_estimation_step := 0
  deck_estimation_rounding := "floor"
  use_estimated_tc_for_bet := false
  use_estimated_tc_for_deviations := false
  hands_per_hour := 100
  shuffle := fun _ l => l

/-- A split-aces hand holding ace-six (soft 17). -/
def c10hand : HandState where
  cards := [Card.cA, Card.c6]
  bet := 10
  split_depth := 1
  is_split_aces := true
  can_double := false

/-- A bare state (zero running count) for exercising the hand dispatch;
its empty shoe makes any draw observable as a crash. -/
def c10state : SimState where
  shoe := []
  cut_card := 0
  pointer := 0
  running_count := 0
  total_profit := 0
  total_sq_profit := 0
  total_initial_bet := 0
  rounds_played := 0
  tc_histogram := []
  tc_histogram_est := []
  tc_stats := []
  last_round_result := none
  last_round_played := false
  is_wonged_out := false
  shuffle_idx := 0

lemma sortSteps_ne_nil (l : List BetRampEntry) (h : l ≠ []) : sortSteps l ≠ [] := by
  cases l with
  | nil => exact absurd rfl h
  | cons x xs =>
    show insertStep x (sortSteps xs) ≠ []
    cases hs : sortSteps xs with
    | nil => simp [insertStep]
    | cons y ys =>
      simp only [insertStep]
      split <;> simp

lemma finalize_ne_crash (req : SimulationRequest) (husz : req.unit_size ≠ 0)
    (b : Bool) (s : SimState) : finalize req b s ≠ .error SimError.crash := by
  unfold finalize
  by_cases h1 : s.rounds_played = 0
  · rw [if_pos h1]
    exact fun h => Except.noConfusion h
  · rw [if_neg h1, if_neg husz]
    exact fun h => Except.noConfusion h

lemma tc_for_bet_cex_zero : tc_for_bet cexReq (initState cexReq) = 0 := by
  unfold tc_for_bet tcInfo
  rw [if_neg (by decide : ¬ (cexReq.use_estimated_tc_for_bet = true))]
  dsimp only
  rw [show (initState cexReq).running_count = 0 from rfl]
  norm_num

lemma tc_for_dev_c10_zero : tc_for_dev c10req c10state = 0 := by
  unfold tc_for_dev tcInfo
  rw [if_neg (by decide : ¬ (c10req.use_estimated_tc_for_deviations = true))]
  dsimp only
  rw [show c10state.running_count = 0 from rfl]
  norm_num

/-! ### C2: bucket sums versus rounds played -/

/-- C2 counterexample: after a single Wong-out skip from the initial
state, the `n_total` sum is 1 while `rounds_played` is 0 (so
Σ n_total ≠ rounds_played), and the `n_iba` sum is 0 while
`rounds_played − Σ n_zero = −1` (so Σ n_iba ≠ rounds_played − Σ n_zero). -/
theorem wong_skip_breaks_stats_rounds_identity :
    ∃ s, simRound cexReq 5 (initState cexReq) = .ok s ∧
      sumNTotal s.tc_stats = 1 ∧ sumNZero s.tc_stats = 1 ∧
      sumNIba s.tc_stats = 0 ∧ s.rounds_played = 0 := by
  have htc : ⌊tc_for_bet cexReq (initState cexReq)⌋ < 1 := by
    rw [tc_for_bet_cex_zero]
    simp
  obtain ⟨s, hok, hT, hZ, hI, hR⟩ :=
    simRound_skip cexReq cexReqOk 5 (initState cexReq)
      (initState_inv cexReq cexReqOk) 1 rfl rfl htc
  have hE : (initState cexReq).tc_stats = [] := rfl
  refine ⟨s, hok, ?_, ?_, ?_, ?_⟩
  · rw [hT, hE]
    simp [sumNTotal]
  · rw [hZ, hE]
    simp [sumNZero]
  · rw [hI, hE]
    simp [sumNIba]
  · rw [hR]
    rfl

/-- C2 (amended): in every state the round loop reaches from the initial
state of a valid request, Σ n_total over the TC buckets equals
`rounds_played` plus Σ n_zero (Wong-out skips bump `n_total` and `n_zero`
without playing a round); and when every ramp step's units and the unit
size are positive, Σ n_iba equals `rounds_played`. -/
theorem tc_stats_sums_reachable (req : SimulationRequest) (hreq : ReqOk req)
    (fuel n : ℕ) (s : SimState)
    (hreach : iterRounds req fuel n (initState req) = .ok s) :
    sumNTotal s.tc_stats = (s.rounds_played : ℚ) + sumNZero s.tc_stats ∧
    ((∀ st ∈ req.bet_ramp.steps, 0 < st.units) → 0 < req.unit_size →
      sumNIba s.tc_stats = (s.rounds_played : ℚ)) := by
  rcases iterRounds_ok req hreq fuel n (initState req) (initState_inv req hreq) with
    ⟨e, herr, _⟩ | ⟨s2, hok, _, hP, hQ⟩
  · rw [herr] at hreach
    exact absurd hreach (fun h => Except.noConfusion h)
  · rw [hok] at hreach
    injection hreach with h
    subst h
    have hE : (initState req).tc_stats = [] := rfl
    have hR : (initState req).rounds_played = 0 := rfl
    constructor
    · apply hP
      rw [hE, hR]
      simp [sumNTotal, sumNZero]
    · intro hu husz
      apply hQ hu husz
      rw [hE, hR]
      simp [sumNIba]

theorem tc_stats_sums_reachable_witness :
    ReqOk cexReq ∧
    iterRounds cexReq 5 0 (initState cexReq) = .ok (initState cexReq) ∧
    (sumNTotal (initState cexReq).tc_stats =
        ((initState cexReq).rounds_played : ℚ) + sumNZero (initState cexReq).tc_stats ∧
     ((∀ st ∈ cexReq.bet_ramp.steps, 0 < st.units) → 0 < cexReq.unit_size →
       sumNIba (initState cexReq).tc_stats = ((initState cexReq).rounds_played : ℚ))) :=
  ⟨cexReqOk, rfl, tc_stats_sums_reachable cexReq cexReqOk 5 0 (initState cexReq) rfl⟩

/-! ### C5: reshuffle and in-bounds drawing -/

/-- C5: for every reachable state of a valid request with 1–8 decks and
penetration in [0.1, 0.99], the reshuffled state repopulates the shoe to
exactly `4·decks` copies of each rank, resets the running count and the
pointer to 0, and sets the cut card to `⌊len·penetration⌋`; when the
pointer has reached the cut card, `draw_card` behaves exactly as on the
reshuffled state; and the `shoe[pointer]` access always succeeds. -/
theorem draw_card_reshuffles_in_bounds (req : SimulationRequest) (hreq : ReqOk req)
    (hdecks : 1 ≤ req.rules.decks ∧ req.rules.decks ≤ 8)
    (hpen : 1 / 10 ≤ req.rules.penetration ∧ req.rules.penetration ≤ 99 / 100)
    (fuel n : ℕ) (s : SimState)
    (hreach : iterRounds req fuel n (initState req) = .ok s) :
    (∀ r : Card, (reshuffleState req s).shoe.count r = 4 * req.rules.decks) ∧
    (reshuffleState req s).running_count = 0 ∧
    (reshuffleState req s).pointer = 0 ∧
    (reshuffleState req s).cut_card =
      cutCardOf (reshuffleState req s).shoe.length req.rules.penetration ∧
    (s.pointer ≥ s.cut_card → draw_card req s = draw_card req (reshuffleState req s)) ∧
    ∃ c s2, draw_card req s = .ok (c, s2) := by
  have hinv : ShoeInv req s := by
    rcases iterRounds_ok req hreq fuel n (initState req) (initState_inv req hreq) with
      ⟨e, herr, _⟩ | ⟨s2, hok, hinv2, _, _⟩
    · rw [herr] at hreach
      exact absurd hreach (fun h => Except.noConfusion h)
    · rw [hok] at hreach
      injection hreach with h
      subst h
      exact hinv2
  have hcut : 0 < (reshuffleState req s).cut_card := by
    show 0 < cutCardOf (build_shoe req s.shuffle_idx).length req.rules.penetration
    rw [build_shoe_length req hreq]
    unfold cutCardOf
    have hd : (1 : ℚ) ≤ (req.rules.decks : ℚ) := by exact_mod_cast hreq.decks_pos
    have hp0 : (0 : ℚ) ≤ req.rules.penetration := le_trans (by norm_num) hpen.1
    have hmul : (1 : ℚ) / 10 * 1 ≤ req.rules.penetration * (req.rules.decks : ℚ) :=
      mul_le_mul hpen.1 hd (by norm_num) hp0
    have h1 : (1 : ℚ) ≤ ((52 * req.rules.decks : ℕ) : ℚ) * req.rules.penetration := by
      push_cast
      nlinarith [hmul]
    have h2 : (1 : ℤ) ≤ ⌊((52 * req.rules.decks : ℕ) : ℚ) * req.rules.penetration⌋ := by
      rw [Int.le_floor]
      exact_mod_cast h1
    omega
  refine ⟨fun r => build_shoe_count req hreq s.shuffle_idx r, rfl, rfl, rfl, ?_, ?_⟩
  · intro h
    have hnot : ¬ ((reshuffleState req s).pointer ≥ (reshuffleState req s).cut_card) := by
      intro hcon
      have hp0 : (reshuffleState req s).pointer = 0 := rfl
      rw [hp0] at hcon
      omega
    unfold draw_card
    dsimp only
    rw [if_pos h, if_neg hnot]
  · obtain ⟨c, s2, hdc, _⟩ := draw_card_ok req hreq s hinv
    exact ⟨c, s2, hdc⟩

theorem draw_card_reshuffles_in_bounds_witness :
    ReqOk cexReq ∧
    (1 ≤ cexReq.rules.decks ∧ cexReq.rules.decks ≤ 8) ∧
    (1 / 10 ≤ cexReq.rules.penetration ∧ cexReq.rules.penetration ≤ 99 / 100) ∧
    iterRounds cexReq 5 0 (initState cexReq) = .ok (initState cexReq) ∧
    ((∀ r : Card,
        (reshuffleState cexReq (initState cexReq)).shoe.count r = 4 * cexReq.rules.decks) ∧
     (reshuffleState cexReq (initState cexReq)).running_count = 0 ∧
     (reshuffleState cexReq (initState cexReq)).pointer = 0 ∧
     (reshuffleState cexReq (initState cexReq)).cut_card =
       cutCardOf (reshuffleState cexReq (initState cexReq)).shoe.length
         cexReq.rules.penetration ∧
     ((initState cexReq).pointer ≥ (initState cexReq).cut_card →
       draw_card cexReq (initState cexReq) =
         draw_card cexReq (reshuffleState cexReq (initState cexReq))) ∧
     ∃ c s2, draw_card cexReq (initState cexReq) = .ok (c, s2)) :=
  ⟨cexReqOk, by decide,
    by norm_num [show cexReq.rules.penetration = 1 / 2 from rfl], rfl,
    draw_card_reshuffles_in_bounds cexReq cexReqOk (by decide)
      (by norm_num [show cexReq.rules.penetration = 1 / 2 from rfl]) 5 0
      (initState cexReq) rfl⟩

/-! ### C9: exception safety of `run_simulation` -/

/-- C9 counterexample: a model-validated request whose bet-ramp `steps`
list is empty makes `run_simulation` raise (the `ramp_steps[0]` access of
`choose_bet` is an `IndexError`) instead of returning a result. -/
theorem run_simulation_empty_ramp_crashes :
    run_simulation c9req 1 1 = .error SimError.crash := rfl

/-- C9 (amended): for every valid request whose bet-ramp `steps` list is
nonempty and whose unit size is nonzero, `run_simulation` never raises:
every run either returns a result or exhausts its iteration budget. -/
theorem run_simulation_no_uncaught_crash (req : SimulationRequest) (hreq : ReqOk req)
    (hramp : req.bet_ramp.steps ≠ []) (husz : req.unit_size ≠ 0) (fuel n : ℕ) :
    run_simulation req fuel n ≠ .error SimError.crash := by
  unfold run_simulation
  rcases iterRounds_ok req hreq fuel n (initState req) (initState_inv req hreq) with
    ⟨e, herr, himp⟩ | ⟨s, hok, _, _, _⟩
  · rw [himp (sortSteps_ne_nil _ hramp)] at herr
    rw [herr]
    exact fun h => SimError.noConfusion (Except.error.inj h)
  · rw [hok]
    dsimp only
    split
    · exact fun h => SimError.noConfusion (Except.error.inj h)
    · exact finalize_ne_crash req husz false s

theorem run_simulation_no_uncaught_crash_witness :
    ReqOk cexReq ∧ cexReq.bet_ramp.steps ≠ [] ∧ cexReq.unit_size ≠ 0 ∧
    run_simulation cexReq 1 0 ≠ .error SimError.crash :=
  ⟨cexReqOk, fun h => List.noConfusion h,
    by norm_num [show cexReq.unit_size = 10 from rfl],
    run_simulation_no_uncaught_crash cexReq cexReqOk (fun h => List.noConfusion h)
      (by norm_num [show cexReq.unit_size = 10 from rfl]) 1 0⟩

/-! ### C10: deviation "R" without the surrender rule -/

/-- C10 counterexample: with surrender disabled, the deviation action "R"
on a split-aces ace-six hand (hit_split_aces false) does not reach the
hit branch: the hand is finalized standing, no card is drawn, and the
state is unchanged. -/
theorem deviation_R_split_aces_stands :
    choose_action c10hand.cards Card.c7 (tc_for_dev c10req c10state) (dev_index c10req)
        c10req.rules c10hand.can_double = "R" ∧
    c10req.rules.surrender = false ∧
    handStep c10req Card.c7 c10hand c10state =
      .ok (StepResult.finish { cards := c10hand.cards, bet := c10hand.bet, surrendered := false, doubled := false, bust := false }, c10state) := by
  refine ⟨?_, rfl, ?_⟩
  · rw [tc_for_dev_c10_zero]
    rfl
  · show handDispatch c10req Card.c7 (tc_for_dev c10req c10state) c10hand c10state = _
    rw [tc_for_dev_c10_zero]
    rfl

/-- C10 (amended): when the chosen action for the current hand is "R" and
`rules.surrender` is false, the dispatch neither surrenders nor doubles
the hand; a split-aces hand with `hit_split_aces` disabled stands at once
with no draw, and every other hand falls through to the hit branch and
draws a card. -/
theorem deviation_R_without_surrender (req : SimulationRequest) (dealer0 : Card)
    (tcd : ℚ) (hand : HandState) (s : SimState)
    (hsur : req.rules.surrender = false)
    (hR : choose_action hand.cards dealer0 tcd (dev_index req) req.rules hand.can_double = "R") :
    (hand.is_split_aces = true → req.rules.hit_split_aces = false →
      handDispatch req dealer0 tcd hand s =
        .ok (StepResult.finish { cards := hand.cards, bet := hand.bet, surrendered := false, doubled := false, bust := false }, s)) ∧
    (∀ c s2, draw_card req s = .ok (c, s2) →
      (hand.is_split_aces = false ∨ req.rules.hit_split_aces = true) →
      handDispatch req dealer0 tcd hand s =
        (if (hand_value (hand.cards ++ [c])).1 ≥ 21 then
          .ok (StepResult.finish { cards := hand.cards ++ [c], bet := hand.bet, surrendered := false, doubled := false, bust := decide ((hand_value (hand.cards ++ [c])).1 > 21) }, s2)
         else
          .ok (StepResult.again { hand with cards := hand.cards ++ [c] }, s2))) := by
  constructor
  · intro hsa hhsa
    unfold handDispatch
    dsimp only
    rw [hR]
    rw [if_neg (by simp [hsur]), if_neg (by decide),
      if_neg (fun hcon => absurd hcon.1 (by decide)),
      if_pos (by simp [hsa, hhsa])]
  · intro c s2 hdc hns
    unfold handDispatch
    dsimp only
    rw [hR]
    rw [if_neg (by simp [hsur]), if_neg (by decide),
      if_neg (fun hcon => absurd hcon.1 (by decide)),
      if_neg (by rcases hns with h | h <;> simp [h])]
    rw [hdc]

theorem deviation_R_without_surrender_witness :
    c10req.rules.surrender = false ∧
    choose_action c10hand.cards Card.c7 0 (dev_index c10req) c10req.rules
      c10hand.can_double = "R" ∧
    ((c10hand.is_split_aces = true → c10req.rules.hit_split_aces = false →
       handDispatch c10req Card.c7 0 c10hand c10state =
         .ok (StepResult.finish { cards := c10hand.cards, bet := c10hand.bet, surrendered := false, doubled := false, bust := false }, c10state)) ∧
     (∀ c s2, draw_card c10req c10state = .ok (c, s2) →
       (c10hand.is_split_aces = false ∨ c10req.rules.hit_split_aces = true) →
       handDispatch c10req Card.c7 0 c10hand c10state =
         (if (hand_value (c10hand.cards ++ [c])).1 ≥ 21 then
           .ok (StepResult.finish { cards := c10hand.cards ++ [c], bet := c10hand.bet, surrendered := false, doubled := false, bust := decide ((hand_value (c10hand.cards ++ [c])).1 > 21) }, s2)
          else
           .ok (StepResult.again { c10hand with cards := c10hand.cards ++ [c] }, s2)))) :=
  ⟨rfl, rfl, deviation_R_without_surrender c10req Card.c7 0 c10hand c10state rfl rfl⟩

end Blackjack
